import Mathlib

/-!
Verification of the decompression engine in `src/decompress.rs`
(`std-mangle-rs`): expansion of a substitution-compressed symbolic tree
into its fully materialized form, with substitution-table bookkeeping and
the structural-sharing optimisation.

Modelling conventions:

* The AST crate (`ast.rs`) is not part of the sources under `src/`; the
  node grammar below is modelled from the spec, §3 "DATA MODEL"
  (`Symbol`, `PathPrefix`, `AbsolutePath`, `Type`, `GenericArgumentList`,
  `Subst`).  Opaque payloads (crate-id data, basic-type codes, identifier
  strings, ABI tokens, generic-parameter indices) are modelled as `Nat`
  tokens; substitution ids (`Subst(u64)`) are modelled as `Nat`.
* Every tree node in the Rust code lives behind an `Arc`.  We model an
  `Arc<T>` as the node itself carrying the address of its allocation as
  the first constructor field (`addr`).  `Arc::clone` returns the same
  addressed value; `Arc::new` draws a fresh address from an allocation
  counter threaded through the state (`next_addr`).  `Arc::ptr_eq` holds
  exactly when two handles denote the same allocation; since in any real
  heap one address holds one node, two handles are the same allocation
  iff they agree as addressed values, so `ptr_eq` is modelled by the
  structural equality `ppBeq`/`apBeq`/`tyBeq` on addressed nodes.
* `HashMap<Subst, Arc<T>>` is modelled as an association list with
  insert-at-head and first-match lookup; since the decompressor never
  inserts the same key twice this has the map semantics of the original.
* The `unreachable!()` assertion (fatal on a dangling substitution
  reference) is modelled by returning `none`: all decompression
  functions return `Option (result × state)`, and `none` is the fatal
  exit.
-/

namespace StdMangle

mutual

/-- Modelled from the spec: `PathPrefix` from `ast.rs` (missing from
`src/`), grammar per spec §3.  The extra first field `addr` of every
constructor is the address of the `Arc` allocation holding the node. -/
inductive PathPrefix : Type where
  | crateId (addr : Nat) (data : Nat)
  | traitImpl (addr : Nat) (self_type : Ty) (impled_trait : Option AbsolutePath)
      (dis : Nat)
  | node (addr : Nat) (pre : PathPrefix) (ident : Nat)
  | subst (addr : Nat) (id : Nat)

/-- Modelled from the spec: `AbsolutePath` from `ast.rs` (missing from
`src/`), grammar per spec §3.  `args` is the `GenericArgumentList`, an
ordered sequence of types (the list itself is a plain vector, not an
`Arc`, hence carries no address). -/
inductive AbsolutePath : Type where
  | path (addr : Nat) (name : PathPrefix) (args : List Ty)
  | subst (addr : Nat) (id : Nat)

/-- Modelled from the spec: `Type` from `ast.rs` (missing from `src/`),
grammar per spec §3. -/
inductive Ty : Type where
  | basicType (addr : Nat) (b : Nat)
  | ref (addr : Nat) (t : Ty)
  | refMut (addr : Nat) (t : Ty)
  | rawPtrConst (addr : Nat) (t : Ty)
  | rawPtrMut (addr : Nat) (t : Ty)
  | array (addr : Nat) (opt_size : Option Nat) (t : Ty)
  | tuple (addr : Nat) (components : List Ty)
  | named (addr : Nat) (abs_path : AbsolutePath)
  | fn (addr : Nat) ( is_unsafe : Bool) (abi : Nat) (return_type : Option Ty)
      (params : List Ty)
  | genericParam (addr : Nat) (idx : Nat)
  | subst (addr : Nat) (id : Nat)

end

/-- Modelled from the spec: `Symbol` from `ast.rs` (missing from `src/`):
the root of every decompression, per spec §3. -/
structure Symbol : Type where
  name : AbsolutePath
  instantiating_crate : Option PathPrefix

mutual

/-- Model of `Arc::ptr_eq` on `Arc<PathPrefix>` handles: two handles denote the
same allocation iff they agree as addressed values. -/
def ppBeq : PathPrefix → PathPrefix → Bool
  | .crateId a d, .crateId a' d' => a == a' && d == d'
  | .traitImpl a st it dis, .traitImpl a' st' it' dis' =>
      a == a' && tyBeq st st' && apOptBeq it it' && dis == dis'
  | .node a p i, .node a' p' i' => a == a' && ppBeq p p' && i == i'
  | .subst a s, .subst a' s' => a == a' && s == s'
  | _, _ => false

/-- Model of `Arc::ptr_eq` on `Arc<AbsolutePath>` handles. -/
def apBeq : AbsolutePath → AbsolutePath → Bool
  | .path a n args, .path a' n' args' =>
      a == a' && ppBeq n n' && tyListBeq args args'
  | .subst a s, .subst a' s' => a == a' && s == s'
  | _, _ => false

/-- Model of `Arc::ptr_eq` on `Arc<Type>` handles. -/
def tyBeq : Ty → Ty → Bool
  | .basicType a b, .basicType a' b' => a == a' && b == b'
  | .ref a t, .ref a' t' => a == a' && tyBeq t t'
  | .refMut a t, .refMut a' t' => a == a' && tyBeq t t'
  | .rawPtrConst a t, .rawPtrConst a' t' => a == a' && tyBeq t t'
  | .rawPtrMut a t, .rawPtrMut a' t' => a == a' && tyBeq t t'
  | .array a sz t, .array a' sz' t' => a == a' && sz == sz' && tyBeq t t'
  | .tuple a cs, .tuple a' cs' => a == a' && tyListBeq cs cs'
  | .named a p, .named a' p' => a == a' && apBeq p p'
  | .fn a u abi rt ps, .fn a' u' abi' rt' ps' =>
      a == a' && u == u' && abi == abi' && tyOptBeq rt rt' && tyListBeq ps ps'
  | .genericParam a i, .genericParam a' i' => a == a' && i == i'
  | .subst a s, .subst a' s' => a == a' && s == s'
  | _, _ => false

/-- Elementwise `Arc::ptr_eq` over a `GenericArgumentList` / parameter
vector (`GenericArgumentList::ptr_eq` in the missing `ast.rs`; modelled
from the spec as elementwise handle comparison). -/
def tyListBeq : List Ty → List Ty → Bool
  | [], [] => true
  | t :: ts, t' :: ts' => tyBeq t t' && tyListBeq ts ts'
  | _, _ => false

/-- Handle comparison on `Option<Arc<AbsolutePath>>` (both absent, or
both present and `ptr_eq`). -/
def apOptBeq : Option AbsolutePath → Option AbsolutePath → Bool
  | none, none => true
  | some p, some p' => apBeq p p'
  | _, _ => false

/-- Handle comparison on `Option<Arc<Type>>`, as used for `Fn` return
types (`return_types_same` in `decompress_type`). -/
def tyOptBeq : Option Ty → Option Ty → Bool
  | none, none => true
  | some t, some t' => tyBeq t t'
  | _, _ => false

end

/-- State of one decompression run: the struct `Decompress` of
`decompress.rs` (three substitution tables plus the shared counter
`subst_counter`), extended with `next_addr`, the allocator's supply of
fresh `Arc` addresses (in Rust this is the heap, not a struct field). -/
structure DState : Type where
  path_prefixes : List (Nat × PathPrefix)
  abs_paths : List (Nat × AbsolutePath)
  types : List (Nat × Ty)
  subst_counter : Nat
  next_addr : Nat

/-- Rust `HashMap::get`: first-match lookup in the association list. -/
def lookupTable {α : Type} (m : List (Nat × α)) (k : Nat) : Option α :=
  match m with
  | [] => none
  | (k', v) :: rest => if k' == k then some v else lookupTable rest k

/-- Rust `alloc_subst(node, |this| &mut this.path_prefixes)`: takes the next
counter value as the id, inserts the node into the path-prefix table
under that id, and advances the counter. -/
def alloc_subst_path_prefixes (node : PathPrefix) (s : DState) : DState :=
  { s with
    path_prefixes := (s.subst_counter, node) :: s.path_prefixes
    subst_counter := s.subst_counter + 1 }

/-- Rust `alloc_subst(node, |this| &mut this.abs_paths)`. -/
def alloc_subst_abs_paths (node : AbsolutePath) (s : DState) : DState :=
  { s with
    abs_paths := (s.subst_counter, node) :: s.abs_paths
    subst_counter := s.subst_counter + 1 }

/-- Rust `alloc_subst(node, |this| &mut this.types)`. -/
def alloc_subst_types (node : Ty) (s : DState) : DState :=
  { s with
    types := (s.subst_counter, node) :: s.types
    subst_counter := s.subst_counter + 1 }

/-- Rust `Arc::new`: draw a fresh allocation address. -/
def arcNew (s : DState) : Nat × DState :=
  (s.next_addr, { s with next_addr := s.next_addr + 1 })

mutual

/-- Rust `Decompress::decompress_abs_path`. -/
def decompress_abs_path (s : DState) (abs_path : AbsolutePath) :
    Option (AbsolutePath × DState) :=
  match abs_path with
  | .path a name args =>
      match decompress_path_prefix s name with
      | none => none
      | some ( new_path_prefix, s1) =>
        match decompress_generic_parameter_list s1 args with
        | none => none
        | some (decompressed_args, s2) =>
          let built :=
            if ppBeq name new_path_prefix && tyListBeq decompressed_args args then
              (AbsolutePath.path a name args, s2)
            else
              let (na, s3) := arcNew s2
              (AbsolutePath.path na new_path_prefix decompressed_args, s3)
          let decompressed := built.1
          let s4 := built.2
          if args.isEmpty then
            some (decompressed, s4)
          else
            some (decompressed, alloc_subst_abs_paths decompressed s4)
  | .subst _ id =>
      match lookupTable s.abs_paths id with
      | some hit => some (hit, s)
      | none =>
        match lookupTable s.path_prefixes id with
        | some pre =>
            let (na, s1) := arcNew s
            some (AbsolutePath.path na pre [], s1)
        | none => none

/-- Rust `Decompress::decompress_path_prefix`. -/
def decompress_path_prefix (s : DState) (path_pre : PathPrefix) :
    Option (PathPrefix × DState) :=
  match path_pre with
  | .crateId a d =>
      let decompressed := PathPrefix.crateId a d
      some (decompressed, alloc_subst_path_prefixes decompressed s)
  | .traitImpl _a self_type impled_trait dis =>
      match decompress_type s self_type with
      | none => none
      | some (decompressed_self_type, s1) =>
        match decompress_opt_abs_path s1 impled_trait with
        | none => none
        | some (decompressed_impled_trait, s2) =>
          let (na, s3) := arcNew s2
          let decompressed :=
            PathPrefix.traitImpl na decompressed_self_type
              decompressed_impled_trait dis
          some (decompressed, alloc_subst_path_prefixes decompressed s3)
  | .node a pre ident =>
      match decompress_path_prefix s pre with
      | none => none
      | some (decompressed_pre, s1) =>
        if ppBeq pre decompressed_pre then
          let decompressed := PathPrefix.node a pre ident
          some (decompressed, alloc_subst_path_prefixes decompressed s1)
        else
          let (na, s2) := arcNew s1
          let decompressed := PathPrefix.node na decompressed_pre ident
          some (decompressed, alloc_subst_path_prefixes decompressed s2)
  | .subst _ id =>
      match lookupTable s.path_prefixes id with
      | some pre => some (pre, s)
      | none => none

/-- Rust `Decompress::decompress_generic_parameter_list` (and the iterator
maps over parameter vectors in `decompress_type`): expand each element
in order, threading the state. -/
def decompress_generic_parameter_list (s : DState) (compressed : List Ty) :
    Option (List Ty × DState) :=
  match compressed with
  | [] => some ([], s)
  | t :: rest =>
      match decompress_type s t with
      | none => none
      | some (t', s1) =>
        match decompress_generic_parameter_list s1 rest with
        | none => none
        | some (rest', s2) => some (t' :: rest', s2)

/-- The `impled_trait.as_ref().map(|t| self.decompress_abs_path(t))`
step of the `TraitImpl` arm. -/
def decompress_opt_abs_path (s : DState) (opt : Option AbsolutePath) :
    Option (Option AbsolutePath × DState) :=
  match opt with
  | none => some (none, s)
  | some p =>
      match decompress_abs_path s p with
      | none => none
      | some (p', s1) => some (some p', s1)

/-- The `return_type.as_ref().map(|t| self.decompress_type(t))` step of
the `Fn` arm. -/
def decompress_opt_type (s : DState) (opt : Option Ty) :
    Option (Option Ty × DState) :=
  match opt with
  | none => some (none, s)
  | some t =>
      match decompress_type s t with
      | none => none
      | some (t', s1) => some (some t', s1)

/-- Rust `Decompress::decompress_type`. -/
def decompress_type (s : DState) (compressed : Ty) : Option (Ty × DState) :=
  match compressed with
  | .basicType a b => some (Ty.basicType a b, s)
  | .ref a inner =>
      match decompress_type s inner with
      | none => none
      | some (inner', s1) =>
        if tyBeq inner inner' then
          let decompressed := Ty.ref a inner
          some (decompressed, alloc_subst_types decompressed s1)
        else
          let (na, s2) := arcNew s1
          let decompressed := Ty.ref na inner'
          some (decompressed, alloc_subst_types decompressed s2)
  | .refMut a inner =>
      match decompress_type s inner with
      | none => none
      | some (inner', s1) =>
        if tyBeq inner inner' then
          let decompressed := Ty.refMut a inner
          some (decompressed, alloc_subst_types decompressed s1)
        else
          let (na, s2) := arcNew s1
          let decompressed := Ty.refMut na inner'
          some (decompressed, alloc_subst_types decompressed s2)
  | .rawPtrConst a inner =>
      match decompress_type s inner with
      | none => none
      | some (inner', s1) =>
        if tyBeq inner inner' then
          let decompressed := Ty.rawPtrConst a inner
          some (decompressed, alloc_subst_types decompressed s1)
        else
          let (na, s2) := arcNew s1
          let decompressed := Ty.rawPtrConst na inner'
          some (decompressed, alloc_subst_types decompressed s2)
  | .rawPtrMut a inner =>
      match decompress_type s inner with
      | none => none
      | some (inner', s1) =>
        if tyBeq inner inner' then
          let decompressed := Ty.rawPtrMut a inner
          some (decompressed, alloc_subst_types decompressed s1)
        else
          let (na, s2) := arcNew s1
          let decompressed := Ty.rawPtrMut na inner'
          some (decompressed, alloc_subst_types decompressed s2)
  | .array a opt_size inner =>
      match decompress_type s inner with
      | none => none
      | some (inner', s1) =>
        if tyBeq inner inner' then
          let decompressed := Ty.array a opt_size inner
          some (decompressed, alloc_subst_types decompressed s1)
        else
          let (na, s2) := arcNew s1
          let decompressed := Ty.array na opt_size inner'
          some (decompressed, alloc_subst_types decompressed s2)
  | .tuple a components =>
      match decompress_generic_parameter_list s components with
      | none => none
      | some (components', s1) =>
        if tyListBeq components' components then
          let decompressed := Ty.tuple a components
          some (decompressed, alloc_subst_types decompressed s1)
        else
          let (na, s2) := arcNew s1
          let decompressed := Ty.tuple na components'
          some (decompressed, alloc_subst_types decompressed s2)
  | .named a abs_path =>
      match decompress_abs_path s abs_path with
      | none => none
      | some (abs_path', s1) =>
        if apBeq abs_path abs_path' then
          some (Ty.named a abs_path, s1)
        else
          let (na, s2) := arcNew s1
          some (Ty.named na abs_path', s2)
  | .fn a is_unsafe abi return_type params =>
      match decompress_generic_parameter_list s params with
      | none => none
      | some (params', s1) =>
        match decompress_opt_type s1 return_type with
        | none => none
        | some (return_type', s2) =>
          if tyOptBeq return_type return_type' && tyListBeq params' params then
            let decompressed := Ty.fn a is_unsafe abi return_type params
            some (decompressed, alloc_subst_types decompressed s2)
          else
            let (na, s3) := arcNew s2
            let decompressed := Ty.fn na is_unsafe abi return_type' params'
            some (decompressed, alloc_subst_types decompressed s3)
  | .genericParam a i =>
      let decompressed := Ty.genericParam a i
      some (decompressed, alloc_subst_types decompressed s)
  | .subst _ id =>
      match lookupTable s.types id with
      | some t => some (t, s)
      | none =>
        match lookupTable s.abs_paths id with
        | some hit =>
            let (na, s1) := arcNew s
            some (Ty.named na hit, s1)
        | none =>
          match lookupTable s.path_prefixes id with
          | some pre =>
              let (na1, s1) := arcNew s
              let (na2, s2) := arcNew s1
              some (Ty.named na2 (AbsolutePath.path na1 pre []), s2)
          | none => none

end

/-- Rust `Decompress::decompress_symbol`: expand `name`, then the optional
`instantiating_crate`. -/
def decompress_symbol (s : DState) (symbol : Symbol) : Option (Symbol × DState) :=
  match decompress_abs_path s symbol.name with
  | none => none
  | some (name', s1) =>
    match symbol.instantiating_crate with
    | none => some (Symbol.mk name' none, s1)
    | some ic =>
        match decompress_path_prefix s1 ic with
        | none => none
        | some (ic', s2) => some (Symbol.mk name' (some ic'), s2)

/-- Rust `decompress_ext`: run a decompression from a fresh state (empty
tables, counter 0); `a0` is the allocator's initial fresh-address
supply, a parameter of the heap model. -/
def decompress_ext (symbol : Symbol) (a0 : Nat) : Option (Symbol × DState) :=
  decompress_symbol (DState.mk [] [] [] 0 a0) symbol

mutual

/-- No `Subst` variant occurs anywhere in the path prefix. -/
def ppSubstFree : PathPrefix → Bool
  | .crateId _ _ => true
  | .traitImpl _ st it _ => tySubstFree st && apOptSubstFree it
  | .node _ p _ => ppSubstFree p
  | .subst _ _ => false

/-- No `Subst` variant occurs anywhere in the absolute path. -/
def apSubstFree : AbsolutePath → Bool
  | .path _ n args => ppSubstFree n && tyListSubstFree args
  | .subst _ _ => false

/-- No `Subst` variant occurs anywhere in the type. -/
def tySubstFree : Ty → Bool
  | .basicType _ _ => true
  | .ref _ t => tySubstFree t
  | .refMut _ t => tySubstFree t
  | .rawPtrConst _ t => tySubstFree t
  | .rawPtrMut _ t => tySubstFree t
  | .array _ _ t => tySubstFree t
  | .tuple _ cs => tyListSubstFree cs
  | .named _ p => apSubstFree p
  | .fn _ _ _ rt ps => tyOptSubstFree rt && tyListSubstFree ps
  | .genericParam _ _ => true
  | .subst _ _ => false

/-- No `Subst` variant occurs in any type of the list. -/
def tyListSubstFree : List Ty → Bool
  | [] => true
  | t :: ts => tySubstFree t && tyListSubstFree ts

/-- No `Subst` variant occurs in the optional absolute path. -/
def apOptSubstFree : Option AbsolutePath → Bool
  | none => true
  | some p => apSubstFree p

/-- No `Subst` variant occurs in the optional type. -/
def tyOptSubstFree : Option Ty → Bool
  | none => true
  | some t => tySubstFree t

end

/-- No `Subst` variant occurs in the optional path prefix. -/
def ppOptSubstFree : Option PathPrefix → Bool
  | none => true
  | some p => ppSubstFree p

/-- No `Subst` variant occurs anywhere in the symbol's tree. -/
def symbolSubstFree (sym : Symbol) : Bool :=
  apSubstFree sym.name && ppOptSubstFree sym.instantiating_crate

mutual

/-- Fuel-indexed variant of `decompress_abs_path`: every call consumes
one unit of fuel, and exhausted fuel is `none`.  Used to state that the
run of the engine is bounded by the finite size of the input tree. -/
def decompress_abs_path_fuel (fuel : Nat) (s : DState) (abs_path : AbsolutePath) :
    Option (AbsolutePath × DState) :=
  match fuel with
  | 0 => none
  | fuel + 1 =>
    match abs_path with
    | .path a name args =>
        match decompress_path_prefix_fuel fuel s name with
        | none => none
        | some ( new_path_prefix, s1) =>
          match decompress_generic_parameter_list_fuel fuel s1 args with
          | none => none
          | some (decompressed_args, s2) =>
            let built :=
              if ppBeq name new_path_prefix && tyListBeq decompressed_args args then
                (AbsolutePath.path a name args, s2)
              else
                let (na, s3) := arcNew s2
                (AbsolutePath.path na new_path_prefix decompressed_args, s3)
            let decompressed := built.1
            let s4 := built.2
            if args.isEmpty then
              some (decompressed, s4)
            else
              some (decompressed, alloc_subst_abs_paths decompressed s4)
    | .subst _ id =>
        match lookupTable s.abs_paths id with
        | some hit => some (hit, s)
        | none =>
          match lookupTable s.path_prefixes id with
          | some pre =>
              let (na, s1) := arcNew s
              some (AbsolutePath.path na pre [], s1)
          | none => none

/-- Fuel-indexed variant of `decompress_path_prefix`. -/
def decompress_path_prefix_fuel (fuel : Nat) (s : DState) (path_pre : PathPrefix) :
    Option (PathPrefix × DState) :=
  match fuel with
  | 0 => none
  | fuel + 1 =>
    match path_pre with
    | .crateId a d =>
        let decompressed := PathPrefix.crateId a d
        some (decompressed, alloc_subst_path_prefixes decompressed s)
    | .traitImpl _a self_type impled_trait dis =>
        match decompress_type_fuel fuel s self_type with
        | none => none
        | some (decompressed_self_type, s1) =>
          match decompress_opt_abs_path_fuel fuel s1 impled_trait with
          | none => none
          | some (decompressed_impled_trait, s2) =>
            let (na, s3) := arcNew s2
            let decompressed :=
              PathPrefix.traitImpl na decompressed_self_type
                decompressed_impled_trait dis
            some (decompressed, alloc_subst_path_prefixes decompressed s3)
    | .node a pre ident =>
        match decompress_path_prefix_fuel fuel s pre with
        | none => none
        | some (decompressed_pre, s1) =>
          if ppBeq pre decompressed_pre then
            let decompressed := PathPrefix.node a pre ident
            some (decompressed, alloc_subst_path_prefixes decompressed s1)
          else
            let (na, s2) := arcNew s1
            let decompressed := PathPrefix.node na decompressed_pre ident
            some (decompressed, alloc_subst_path_prefixes decompressed s2)
    | .subst _ id =>
        match lookupTable s.path_prefixes id with
        | some pre => some (pre, s)
        | none => none

/-- Fuel-indexed variant of `decompress_generic_parameter_list`. -/
def decompress_generic_parameter_list_fuel (fuel : Nat) (s : DState)
    (compressed : List Ty) : Option (List Ty × DState) :=
  match fuel with
  | 0 => none
  | fuel + 1 =>
    match compressed with
    | [] => some ([], s)
    | t :: rest =>
        match decompress_type_fuel fuel s t with
        | none => none
        | some (t', s1) =>
          match decompress_generic_parameter_list_fuel fuel s1 rest with
          | none => none
          | some (rest', s2) => some (t' :: rest', s2)

/-- Fuel-indexed variant of `decompress_opt_abs_path`. -/
def decompress_opt_abs_path_fuel (fuel : Nat) (s : DState)
    (opt : Option AbsolutePath) : Option (Option AbsolutePath × DState) :=
  match fuel with
  | 0 => none
  | fuel + 1 =>
    match opt with
    | none => some (none, s)
    | some p =>
        match decompress_abs_path_fuel fuel s p with
        | none => none
        | some (p', s1) => some (some p', s1)

/-- Fuel-indexed variant of `decompress_opt_type`. -/
def decompress_opt_type_fuel (fuel : Nat) (s : DState) (opt : Option Ty) :
    Option (Option Ty × DState) :=
  match fuel with
  | 0 => none
  | fuel + 1 =>
    match opt with
    | none => some (none, s)
    | some t =>
        match decompress_type_fuel fuel s t with
        | none => none
        | some (t', s1) => some (some t', s1)

/-- Fuel-indexed variant of `decompress_type`. -/
def decompress_type_fuel (fuel : Nat) (s : DState) (compressed : Ty) :
    Option (Ty × DState) :=
  match fuel with
  | 0 => none
  | fuel + 1 =>
    match compressed with
    | .basicType a b => some (Ty.basicType a b, s)
    | .ref a inner =>
        match decompress_type_fuel fuel s inner with
        | none => none
        | some (inner', s1) =>
          if tyBeq inner inner' then
            let decompressed := Ty.ref a inner
            some (decompressed, alloc_subst_types decompressed s1)
          else
            let (na, s2) := arcNew s1
            let decompressed := Ty.ref na inner'
            some (decompressed, alloc_subst_types decompressed s2)
    | .refMut a inner =>
        match decompress_type_fuel fuel s inner with
        | none => none
        | some (inner', s1) =>
          if tyBeq inner inner' then
            let decompressed := Ty.refMut a inner
            some (decompressed, alloc_subst_types decompressed s1)
          else
            let (na, s2) := arcNew s1
            let decompressed := Ty.refMut na inner'
            some (decompressed, alloc_subst_types decompressed s2)
    | .rawPtrConst a inner =>
        match decompress_type_fuel fuel s inner with
        | none => none
        | some (inner', s1) =>
          if tyBeq inner inner' then
            let decompressed := Ty.rawPtrConst a inner
            some (decompressed, alloc_subst_types decompressed s1)
          else
            let (na, s2) := arcNew s1
            let decompressed := Ty.rawPtrConst na inner'
            some (decompressed, alloc_subst_types decompressed s2)
    | .rawPtrMut a inner =>
        match decompress_type_fuel fuel s inner with
        | none => none
        | some (inner', s1) =>
          if tyBeq inner inner' then
            let decompressed := Ty.rawPtrMut a inner
            some (decompressed, alloc_subst_types decompressed s1)
          else
            let (na, s2) := arcNew s1
            let decompressed := Ty.rawPtrMut na inner'
            some (decompressed, alloc_subst_types decompressed s2)
    | .array a opt_size inner =>
        match decompress_type_fuel fuel s inner with
        | none => none
        | some (inner', s1) =>
          if tyBeq inner inner' then
            let decompressed := Ty.array a opt_size inner
            some (decompressed, alloc_subst_types decompressed s1)
          else
            let (na, s2) := arcNew s1
            let decompressed := Ty.array na opt_size inner'
            some (decompressed, alloc_subst_types decompressed s2)
    | .tuple a components =>
        match decompress_generic_parameter_list_fuel fuel s components with
        | none => none
        | some (components', s1) =>
          if tyListBeq components' components then
            let decompressed := Ty.tuple a components
            some (decompressed, alloc_subst_types decompressed s1)
          else
            let (na, s2) := arcNew s1
            let decompressed := Ty.tuple na components'
            some (decompressed, alloc_subst_types decompressed s2)
    | .named a abs_path =>
        match decompress_abs_path_fuel fuel s abs_path with
        | none => none
        | some (abs_path', s1) =>
          if apBeq abs_path abs_path' then
            some (Ty.named a abs_path, s1)
          else
            let (na, s2) := arcNew s1
            some (Ty.named na abs_path', s2)
    | .fn a is_unsafe abi return_type params =>
        match decompress_generic_parameter_list_fuel fuel s params with
        | none => none
        | some (params', s1) =>
          match decompress_opt_type_fuel fuel s1 return_type with
          | none => none
          | some (return_type', s2) =>
            if tyOptBeq return_type return_type' && tyListBeq params' params then
              let decompressed := Ty.fn a is_unsafe abi return_type params
              some (decompressed, alloc_subst_types decompressed s2)
            else
              let (na, s3) := arcNew s2
              let decompressed := Ty.fn na is_unsafe abi return_type' params'
              some (decompressed, alloc_subst_types decompressed s3)
    | .genericParam a i =>
        let decompressed := Ty.genericParam a i
        some (decompressed, alloc_subst_types decompressed s)
    | .subst _ id =>
        match lookupTable s.types id with
        | some t => some (t, s)
        | none =>
          match lookupTable s.abs_paths id with
          | some hit =>
              let (na, s1) := arcNew s
              some (Ty.named na hit, s1)
          | none =>
            match lookupTable s.path_prefixes id with
            | some pre =>
                let (na1, s1) := arcNew s
                let (na2, s2) := arcNew s1
                some (Ty.named na2 (AbsolutePath.path na1 pre []), s2)
            | none => none

end

/-- Fuel-indexed variant of `decompress_symbol`. -/
def decompress_symbol_fuel (fuel : Nat) (s : DState) (symbol : Symbol) :
    Option (Symbol × DState) :=
  match decompress_abs_path_fuel fuel s symbol.name with
  | none => none
  | some (name', s1) =>
    match symbol.instantiating_crate with
    | none => some (Symbol.mk name' none, s1)
    | some ic =>
        match decompress_path_prefix_fuel fuel s1 ic with
        | none => none
        | some (ic', s2) => some (Symbol.mk name' (some ic'), s2)

/-- Fuel-indexed variant of `decompress_ext`. -/
def decompress_ext_fuel (fuel : Nat) (symbol : Symbol) (a0 : Nat) :
    Option (Symbol × DState) :=
  decompress_symbol_fuel fuel (DState.mk [] [] [] 0 a0) symbol

/-- Every node stored in any of the three substitution tables is fully
expanded (contains no `Subst` variant at any depth). -/
def TablesOK (s : DState) : Prop :=
  (∀ kv ∈ s.path_prefixes, ppSubstFree kv.2 = true) ∧
  (∀ kv ∈ s.abs_paths, apSubstFree kv.2 = true) ∧
  (∀ kv ∈ s.types, tySubstFree kv.2 = true)

/-- Every id present in any of the three substitution tables is below
the shared counter (so the next allocated id is fresh). -/
def KeysBelow (s : DState) : Prop :=
  (∀ kv ∈ s.path_prefixes, kv.1 < s.subst_counter) ∧
  (∀ kv ∈ s.abs_paths, kv.1 < s.subst_counter) ∧
  (∀ kv ∈ s.types, kv.1 < s.subst_counter)

/-- Every binding of every table of `s` is still a binding of `s'`:
no entry was removed or overwritten. -/
def Preserves (s s' : DState) : Prop :=
  (∀ k v, lookupTable s.path_prefixes k = some v →
    lookupTable s'.path_prefixes k = some v) ∧
  (∀ k v, lookupTable s.abs_paths k = some v →
    lookupTable s'.abs_paths k = some v) ∧
  (∀ k v, lookupTable s.types k = some v → lookupTable s'.types k = some v)

theorem lookupTable_mem {α : Type} {m : List (Nat × α)} {k : Nat} {v : α}
    (h : lookupTable m k = some v) : (k, v) ∈ m := by
  induction m with
  | nil => simp [lookupTable] at h
  | cons kv rest ih =>
    obtain ⟨k', v'⟩ := kv
    rw [lookupTable] at h
    by_cases hk : k' == k
    · rw [if_pos hk] at h
      cases h
      have : k' = k := by
        exact beq_iff_eq.mp hk
      subst this
      exact List.mem_cons_self _ _
    · rw [if_neg hk] at h
      exact List.mem_cons_of_mem _ (ih h)

theorem lookupTable_cons_self {α : Type} (k : Nat) (v : α)
    (m : List (Nat × α)) : lookupTable ((k, v) :: m) k = some v := by
  simp [lookupTable]

theorem lookupTable_cons_ne {α : Type} {k k' : Nat} (v : α)
    (m : List (Nat × α)) (h : k ≠ k') :
    lookupTable ((k, v) :: m) k' = lookupTable m k' := by
  simp [lookupTable, h]

theorem TablesOK_lookup_pp {s : DState} {k : Nat} {v : PathPrefix}
    (hT : TablesOK s) (h : lookupTable s.path_prefixes k = some v) :
    ppSubstFree v = true :=
  hT.1 (k, v) (lookupTable_mem h)

theorem TablesOK_lookup_ap {s : DState} {k : Nat} {v : AbsolutePath}
    (hT : TablesOK s) (h : lookupTable s.abs_paths k = some v) :
    apSubstFree v = true :=
  hT.2.1 (k, v) (lookupTable_mem h)

theorem TablesOK_lookup_ty {s : DState} {k : Nat} {v : Ty}
    (hT : TablesOK s) (h : lookupTable s.types k = some v) :
    tySubstFree v = true :=
  hT.2.2 (k, v) (lookupTable_mem h)

theorem TablesOK_arcNew (s : DState) (hT : TablesOK s) :
    TablesOK (arcNew s).2 := hT

theorem TablesOK_alloc_pp {s : DState} {node : PathPrefix} (hT : TablesOK s)
    (hn : ppSubstFree node = true) :
    TablesOK (alloc_subst_path_prefixes node s) := by
  obtain ⟨h1, h2, h3⟩ := hT
  refine ⟨?_, h2, h3⟩
  intro kv hkv
  rcases List.mem_cons.1 hkv with hkv | hkv
  · rw [hkv]
    exact hn
  · exact h1 _ hkv

theorem TablesOK_alloc_ap {s : DState} {node : AbsolutePath} (hT : TablesOK s)
    (hn : apSubstFree node = true) :
    TablesOK (alloc_subst_abs_paths node s) := by
  obtain ⟨h1, h2, h3⟩ := hT
  refine ⟨h1, ?_, h3⟩
  intro kv hkv
  rcases List.mem_cons.1 hkv with hkv | hkv
  · rw [hkv]
    exact hn
  · exact h2 _ hkv

theorem beq_sound_master : ∀ n : Nat,
    (∀ p q : PathPrefix, sizeOf p ≤ n → ppBeq p q = true → p = q) ∧
    (∀ p q : AbsolutePath, sizeOf p ≤ n → apBeq p q = true → p = q) ∧
    (∀ t u : Ty, sizeOf t ≤ n → tyBeq t u = true → t = u) ∧
    (∀ ts us : List Ty, sizeOf ts ≤ n → tyListBeq ts us = true → ts = us) ∧
    (∀ op oq : Option AbsolutePath, sizeOf op ≤ n → apOptBeq op oq = true → op = oq) ∧
    (∀ ot ou : Option Ty, sizeOf ot ≤ n → tyOptBeq ot ou = true → ot = ou) := by
  intro n
  induction n using Nat.strong_induction_on with
  | _ n ih =>
  refine ⟨?_, ?_, ?_, ?_, ?_, ?_⟩
  · intro p q hsz hb
    cases p with
    | crateId a d =>
      cases q <;> try (simp [ppBeq] at hb ; done)
      case crateId a' d' =>
        simp only [ppBeq, Bool.and_eq_true, beq_iff_eq] at hb
        rw [hb.1, hb.2]
    | traitImpl a st it dis =>
      cases q <;> try (simp [ppBeq] at hb ; done)
      case traitImpl a' st' it' dis' =>
        simp only [ppBeq, Bool.and_eq_true, beq_iff_eq] at hb
        obtain ⟨⟨⟨ha, hst⟩, hit⟩, hdis⟩ := hb
        have h1 : sizeOf st < n := by simp at hsz; omega
        have h2 : sizeOf it < n := by simp at hsz; omega
        subst ha; subst hdis
        rw [(ih _ h1).2.2.1 st st' (Nat.le_refl _) hst,
          (ih _ h2).2.2.2.2.1 it it' (Nat.le_refl _) hit]
    | node a p i =>
      cases q <;> try (simp [ppBeq] at hb ; done)
      case node a' p' i' =>
        simp only [ppBeq, Bool.and_eq_true, beq_iff_eq] at hb
        obtain ⟨⟨ha, hp⟩, hi⟩ := hb
        have h1 : sizeOf p < n := by simp at hsz; omega
        subst ha; subst hi
        rw [(ih _ h1).1 p p' (Nat.le_refl _) hp]
    | subst a sid =>
      cases q <;> try (simp [ppBeq] at hb ; done)
      case subst a' sid' =>
        simp only [ppBeq, Bool.and_eq_true, beq_iff_eq] at hb
        rw [hb.1, hb.2]
  · intro p q hsz hb
    cases p with
    | path a name args =>
      cases q <;> try (simp [apBeq] at hb ; done)
      case path a' name' args' =>
        simp only [apBeq, Bool.and_eq_true, beq_iff_eq] at hb
        obtain ⟨⟨ha, hn⟩, hargs⟩ := hb
        have h1 : sizeOf name < n := by simp at hsz; omega
        have h2 : sizeOf args < n := by simp at hsz; omega
        subst ha
        rw [(ih _ h1).1 name name' (Nat.le_refl _) hn,
          (ih _ h2).2.2.2.1 args args' (Nat.le_refl _) hargs]
    | subst a sid =>
      cases q <;> try (simp [apBeq] at hb ; done)
      case subst a' sid' =>
        simp only [apBeq, Bool.and_eq_true, beq_iff_eq] at hb
        rw [hb.1, hb.2]
  · intro t u hsz hb
    cases t with
    | basicType a b =>
      cases u <;> try (simp [tyBeq] at hb ; done)
      case basicType a' b' =>
        simp only [tyBeq, Bool.and_eq_true, beq_iff_eq] at hb
        rw [hb.1, hb.2]
    | ref a inner =>
      cases u <;> try (simp [tyBeq] at hb ; done)
      case ref a' inner' =>
        simp only [tyBeq, Bool.and_eq_true, beq_iff_eq] at hb
        obtain ⟨ha, hi⟩ := hb
        have h1 : sizeOf inner < n := by simp at hsz; omega
        subst ha
        rw [(ih _ h1).2.2.1 inner inner' (Nat.le_refl _) hi]
    | refMut a inner =>
      cases u <;> try (simp [tyBeq] at hb ; done)
      case refMut a' inner' =>
        simp only [tyBeq, Bool.and_eq_true, beq_iff_eq] at hb
        obtain ⟨ha, hi⟩ := hb
        have h1 : sizeOf inner < n := by simp at hsz; omega
        subst ha
        rw [(ih _ h1).2.2.1 inner inner' (Nat.le_refl _) hi]
    | rawPtrConst a inner =>
      cases u <;> try (simp [tyBeq] at hb ; done)
      case rawPtrConst a' inner' =>
        simp only [tyBeq, Bool.and_eq_true, beq_iff_eq] at hb
        obtain ⟨ha, hi⟩ := hb
        have h1 : sizeOf inner < n := by simp at hsz; omega
        subst ha
        rw [(ih _ h1).2.2.1 inner inner' (Nat.le_refl _) hi]
    | rawPtrMut a inner =>
      cases u <;> try (simp [tyBeq] at hb ; done)
      case rawPtrMut a' inner' =>
        simp only [tyBeq, Bool.and_eq_true, beq_iff_eq] at hb
        obtain ⟨ha, hi⟩ := hb
        have h1 : sizeOf inner < n := by simp at hsz; omega
        subst ha
        rw [(ih _ h1).2.2.1 inner inner' (Nat.le_refl _) hi]
    | array a osz inner =>
      cases u <;> try (simp [tyBeq] at hb ; done)
      case array a' osz' inner' =>
        simp only [tyBeq, Bool.and_eq_true, beq_iff_eq] at hb
        obtain ⟨⟨ha, hosz⟩, hi⟩ := hb
        have h1 : sizeOf inner < n := by simp at hsz; omega
        subst ha; subst hosz
        rw [(ih _ h1).2.2.1 inner inner' (Nat.le_refl _) hi]
    | tuple a cs =>
      cases u <;> try (simp [tyBeq] at hb ; done)
      case tuple a' cs' =>
        simp only [tyBeq, Bool.and_eq_true, beq_iff_eq] at hb
        obtain ⟨ha, hcs⟩ := hb
        have h1 : sizeOf cs < n := by simp at hsz; omega
        subst ha
        rw [(ih _ h1).2.2.2.1 cs cs' (Nat.le_refl _) hcs]
    | named a p =>
      cases u <;> try (simp [tyBeq] at hb ; done)
      case named a' p' =>
        simp only [tyBeq, Bool.and_eq_true, beq_iff_eq] at hb
        obtain ⟨ha, hp⟩ := hb
        have h1 : sizeOf p < n := by simp at hsz; omega
        subst ha
        rw [(ih _ h1).2.1 p p' (Nat.le_refl _) hp]
    | fn a iu abi rt ps =>
      cases u <;> try (simp [tyBeq] at hb ; done)
      case fn a' iu' abi' rt' ps' =>
        simp only [tyBeq, Bool.and_eq_true, beq_iff_eq] at hb
        obtain ⟨⟨⟨⟨ha, hiu⟩, habi⟩, hrt⟩, hps⟩ := hb
        have h1 : sizeOf rt < n := by simp at hsz; omega
        have h2 : sizeOf ps < n := by simp at hsz; omega
        subst ha; subst hiu; subst habi
        rw [(ih _ h1).2.2.2.2.2 rt rt' (Nat.le_refl _) hrt,
          (ih _ h2).2.2.2.1 ps ps' (Nat.le_refl _) hps]
    | genericParam a i =>
      cases u <;> try (simp [tyBeq] at hb ; done)
      case genericParam a' i' =>
        simp only [tyBeq, Bool.and_eq_true, beq_iff_eq] at hb
        rw [hb.1, hb.2]
    | subst a sid =>
      cases u <;> try (simp [tyBeq] at hb ; done)
      case subst a' sid' =>
        simp only [tyBeq, Bool.and_eq_true, beq_iff_eq] at hb
        rw [hb.1, hb.2]
  · intro ts us hsz hb
    cases ts with
    | nil =>
      cases us with
      | nil => rfl
      | cons u us' => simp [tyListBeq] at hb
    | cons t ts' =>
      cases us with
      | nil => simp [tyListBeq] at hb
      | cons u us' =>
        simp only [tyListBeq, Bool.and_eq_true] at hb
        obtain ⟨h1, h2⟩ := hb
        have s1 : sizeOf t < n := by simp at hsz; omega
        have s2 : sizeOf ts' < n := by simp at hsz; omega
        rw [(ih _ s1).2.2.1 t u (Nat.le_refl _) h1,
          (ih _ s2).2.2.2.1 ts' us' (Nat.le_refl _) h2]
  · intro op oq hsz hb
    cases op with
    | none =>
      cases oq with
      | none => rfl
      | some q => simp [apOptBeq] at hb
    | some p =>
      cases oq with
      | none => simp [apOptBeq] at hb
      | some q =>
        simp only [apOptBeq] at hb
        have h1 : sizeOf p < n := by simp at hsz; omega
        rw [(ih _ h1).2.1 p q (Nat.le_refl _) hb]
  · intro ot ou hsz hb
    cases ot with
    | none =>
      cases ou with
      | none => rfl
      | some u => simp [tyOptBeq] at hb
    | some t =>
      cases ou with
      | none => simp [tyOptBeq] at hb
      | some u =>
        simp only [tyOptBeq] at hb
        have h1 : sizeOf t < n := by simp at hsz; omega
        rw [(ih _ h1).2.2.1 t u (Nat.le_refl _) hb]

theorem beq_refl_master : ∀ n : Nat,
    (∀ p : PathPrefix, sizeOf p ≤ n → ppBeq p p = true) ∧
    (∀ p : AbsolutePath, sizeOf p ≤ n → apBeq p p = true) ∧
    (∀ t : Ty, sizeOf t ≤ n → tyBeq t t = true) ∧
    (∀ ts : List Ty, sizeOf ts ≤ n → tyListBeq ts ts = true) ∧
    (∀ op : Option AbsolutePath, sizeOf op ≤ n → apOptBeq op op = true) ∧
    (∀ ot : Option Ty, sizeOf ot ≤ n → tyOptBeq ot ot = true) := by
  intro n
  induction n using Nat.strong_induction_on with
  | _ n ih =>
  refine ⟨?_, ?_, ?_, ?_, ?_, ?_⟩
  · intro p hsz
    cases p with
    | crateId a d => simp [ppBeq]
    | traitImpl a st it dis =>
      have h1 : sizeOf st < n := by simp at hsz; omega
      have h2 : sizeOf it < n := by simp at hsz; omega
      simp [ppBeq, (ih _ h1).2.2.1 st (Nat.le_refl _),
        (ih _ h2).2.2.2.2.1 it (Nat.le_refl _)]
    | node a p i =>
      have h1 : sizeOf p < n := by simp at hsz; omega
      simp [ppBeq, (ih _ h1).1 p (Nat.le_refl _)]
    | subst a sid => simp [ppBeq]
  · intro p hsz
    cases p with
    | path a name args =>
      have h1 : sizeOf name < n := by simp at hsz; omega
      have h2 : sizeOf args < n := by simp at hsz; omega
      simp [apBeq, (ih _ h1).1 name (Nat.le_refl _),
        (ih _ h2).2.2.2.1 args (Nat.le_refl _)]
    | subst a sid => simp [apBeq]
  · intro t hsz
    cases t with
    | basicType a b => simp [tyBeq]
    | ref a inner =>
      have h1 : sizeOf inner < n := by simp at hsz; omega
      simp [tyBeq, (ih _ h1).2.2.1 inner (Nat.le_refl _)]
    | refMut a inner =>
      have h1 : sizeOf inner < n := by simp at hsz; omega
      simp [tyBeq, (ih _ h1).2.2.1 inner (Nat.le_refl _)]
    | rawPtrConst a inner =>
      have h1 : sizeOf inner < n := by simp at hsz; omega
      simp [tyBeq, (ih _ h1).2.2.1 inner (Nat.le_refl _)]
    | rawPtrMut a inner =>
      have h1 : sizeOf inner < n := by simp at hsz; omega
      simp [tyBeq, (ih _ h1).2.2.1 inner (Nat.le_refl _)]
    | array a osz inner =>
      have h1 : sizeOf inner < n := by simp at hsz; omega
      simp [tyBeq, (ih _ h1).2.2.1 inner (Nat.le_refl _)]
    | tuple a cs =>
      have h1 : sizeOf cs < n := by simp at hsz; omega
      simp [tyBeq, (ih _ h1).2.2.2.1 cs (Nat.le_refl _)]
    | named a p =>
      have h1 : sizeOf p < n := by simp at hsz; omega
      simp [tyBeq, (ih _ h1).2.1 p (Nat.le_refl _)]
    | fn a iu abi rt ps =>
      have h1 : sizeOf rt < n := by simp at hsz; omega
      have h2 : sizeOf ps < n := by simp at hsz; omega
      simp [tyBeq, (ih _ h1).2.2.2.2.2 rt (Nat.le_refl _),
        (ih _ h2).2.2.2.1 ps (Nat.le_refl _)]
    | genericParam a i => simp [tyBeq]
    | subst a sid => simp [tyBeq]
  · intro ts hsz
    cases ts with
    | nil => simp [tyListBeq]
    | cons t ts' =>
      have s1 : sizeOf t < n := by simp at hsz; omega
      have s2 : sizeOf ts' < n := by simp at hsz; omega
      simp [tyListBeq, (ih _ s1).2.2.1 t (Nat.le_refl _),
        (ih _ s2).2.2.2.1 ts' (Nat.le_refl _)]
  · intro op hsz
    cases op with
    | none => simp [apOptBeq]
    | some p =>
      have h1 : sizeOf p < n := by simp at hsz; omega
      simp [apOptBeq, (ih _ h1).2.1 p (Nat.le_refl _)]
  · intro ot hsz
    cases ot with
    | none => simp [tyOptBeq]
    | some t =>
      have h1 : sizeOf t < n := by simp at hsz; omega
      simp [tyOptBeq, (ih _ h1).2.2.1 t (Nat.le_refl _)]

theorem ppBeq_eq {p q : PathPrefix} : ppBeq p q = true ↔ p = q :=
  ⟨fun h => (beq_sound_master (sizeOf p)).1 p q (Nat.le_refl _) h,
   fun h => h ▸ (beq_refl_master (sizeOf p)).1 p (Nat.le_refl _)⟩

theorem apBeq_eq {p q : AbsolutePath} : apBeq p q = true ↔ p = q :=
  ⟨fun h => (beq_sound_master (sizeOf p)).2.1 p q (Nat.le_refl _) h,
   fun h => h ▸ (beq_refl_master (sizeOf p)).2.1 p (Nat.le_refl _)⟩

theorem tyBeq_eq {t u : Ty} : tyBeq t u = true ↔ t = u :=
  ⟨fun h => (beq_sound_master (sizeOf t)).2.2.1 t u (Nat.le_refl _) h,
   fun h => h ▸ (beq_refl_master (sizeOf t)).2.2.1 t (Nat.le_refl _)⟩

theorem tyListBeq_eq {ts us : List Ty} : tyListBeq ts us = true ↔ ts = us :=
  ⟨fun h => (beq_sound_master (sizeOf ts)).2.2.2.1 ts us (Nat.le_refl _) h,
   fun h => h ▸ (beq_refl_master (sizeOf ts)).2.2.2.1 ts (Nat.le_refl _)⟩

theorem apOptBeq_eq {op oq : Option AbsolutePath} : apOptBeq op oq = true ↔ op = oq :=
  ⟨fun h => (beq_sound_master (sizeOf op)).2.2.2.2.1 op oq (Nat.le_refl _) h,
   fun h => h ▸ (beq_refl_master (sizeOf op)).2.2.2.2.1 op (Nat.le_refl _)⟩

theorem tyOptBeq_eq {ot ou : Option Ty} : tyOptBeq ot ou = true ↔ ot = ou :=
  ⟨fun h => (beq_sound_master (sizeOf ot)).2.2.2.2.2 ot ou (Nat.le_refl _) h,
   fun h => h ▸ (beq_refl_master (sizeOf ot)).2.2.2.2.2 ot (Nat.le_refl _)⟩

theorem TablesOK_alloc_ty {s : DState} {node : Ty} (hT : TablesOK s)
    (hn : tySubstFree node = true) :
    TablesOK (alloc_subst_types node s) := by
  obtain ⟨h1, h2, h3⟩ := hT
  refine ⟨h1, h2, ?_⟩
  intro kv hkv
  rcases List.mem_cons.1 hkv with hkv | hkv
  · rw [hkv]
    exact hn
  · exact h3 _ hkv

theorem band_elim {a b : Bool} (h : (a && b) = true) :
    a = true ∧ b = true := by
  constructor
  · exact Bool.and_elim_left h
  · exact Bool.and_elim_right h

theorem substFree_master : ∀ n : Nat,
    (∀ s p r s', sizeOf p ≤ n → TablesOK s →
      decompress_path_prefix s p = some (r, s') →
      TablesOK s' ∧ ppSubstFree r = true) ∧
    (∀ s ap r s', sizeOf ap ≤ n → TablesOK s →
      decompress_abs_path s ap = some (r, s') →
      TablesOK s' ∧ apSubstFree r = true) ∧
    (∀ s t r s', sizeOf t ≤ n → TablesOK s →
      decompress_type s t = some (r, s') →
      TablesOK s' ∧ tySubstFree r = true) ∧
    (∀ s ts rs s', sizeOf ts ≤ n → TablesOK s →
      decompress_generic_parameter_list s ts = some (rs, s') →
      TablesOK s' ∧ tyListSubstFree rs = true) ∧
    (∀ s op r s', sizeOf op ≤ n → TablesOK s →
      decompress_opt_abs_path s op = some (r, s') →
      TablesOK s' ∧ apOptSubstFree r = true) ∧
    (∀ s ot r s', sizeOf ot ≤ n → TablesOK s →
      decompress_opt_type s ot = some (r, s') →
      TablesOK s' ∧ tyOptSubstFree r = true) := by
  intro n
  induction n using Nat.strong_induction_on with
  | _ n ih =>
  refine ⟨?_, ?_, ?_, ?_, ?_, ?_⟩
  · intro s p r s' hsz hT hd
    cases p with
    | crateId a d =>
      simp only [ decompress_path_prefix] at hd
      obtain ⟨rfl, rfl⟩ := by
        simpa only [Option.some.injEq, Prod.mk.injEq] using hd
      exact ⟨TablesOK_alloc_pp hT (by simp [ppSubstFree]), by simp [ppSubstFree]⟩
    | traitImpl a st it dis =>
      simp only [ decompress_path_prefix, arcNew] at hd
      have h1 : sizeOf st < n := by simp at hsz; omega
      have h2 : sizeOf it < n := by simp at hsz; omega
      cases hrec1 : decompress_type s st with
      | none => simp [hrec1] at hd
      | some res1 =>
        obtain ⟨dst, s1⟩ := res1
        obtain ⟨hT1, hdst⟩ := (ih _ h1).2.2.1 s st dst s1 (Nat.le_refl _) hT hrec1
        cases hrec2 : decompress_opt_abs_path s1 it with
        | none => simp [hrec1, hrec2] at hd
        | some res2 =>
          obtain ⟨dit, s2⟩ := res2
          obtain ⟨hT2, hdit⟩ :=
            (ih _ h2).2.2.2.2.1 s1 it dit s2 (Nat.le_refl _) hT1 hrec2
          simp only [hrec1, hrec2] at hd
          obtain ⟨rfl, rfl⟩ := by
            simpa only [Option.some.injEq, Prod.mk.injEq] using hd
          refine ⟨TablesOK_alloc_pp hT2 ?_, ?_⟩ <;>
            simp [ppSubstFree, hdst, hdit]
    | node a pre ident =>
      simp only [ decompress_path_prefix, arcNew] at hd
      have hlt : sizeOf pre < n := by simp at hsz; omega
      cases hrec : decompress_path_prefix s pre with
      | none => simp [hrec] at hd
      | some res =>
        obtain ⟨dp, s1⟩ := res
        obtain ⟨hT1, hdp⟩ := (ih _ hlt).1 s pre dp s1 (Nat.le_refl _) hT hrec
        by_cases hbeq : ppBeq pre dp = true
        · simp only [hrec, hbeq, if_true] at hd
          obtain ⟨rfl, rfl⟩ := by
            simpa only [Option.some.injEq, Prod.mk.injEq] using hd
          have hpre : pre = dp := ppBeq_eq.mp hbeq
          refine ⟨TablesOK_alloc_pp hT1 ?_, ?_⟩ <;>
            (simp only [ppSubstFree]; rw [hpre]; exact hdp)
        · simp only [hrec, hbeq, if_false, Bool.false_eq_true] at hd
          obtain ⟨rfl, rfl⟩ := by
            simpa only [Option.some.injEq, Prod.mk.injEq] using hd
          refine ⟨TablesOK_alloc_pp hT1 ?_, ?_⟩ <;>
            (simp only [ppSubstFree]; exact hdp)
    | subst a sid =>
      simp only [ decompress_path_prefix] at hd
      cases hlk : lookupTable s.path_prefixes sid with
      | none => simp [hlk] at hd
      | some hit =>
        simp only [hlk] at hd
        obtain ⟨rfl, rfl⟩ := by
          simpa only [Option.some.injEq, Prod.mk.injEq] using hd
        exact ⟨hT, TablesOK_lookup_pp hT hlk⟩
  · intro s ap r s' hsz hT hd
    cases ap with
    | path a name args =>
      simp only [decompress_abs_path, arcNew] at hd
      have h1 : sizeOf name < n := by simp at hsz; omega
      have h2 : sizeOf args < n := by simp at hsz; omega
      cases hrec1 : decompress_path_prefix s name with
      | none => simp [hrec1] at hd
      | some res1 =>
        obtain ⟨new', s1⟩ := res1
        obtain ⟨hT1, hnew⟩ := (ih _ h1).1 s name new' s1 (Nat.le_refl _) hT hrec1
        cases hrec2 : decompress_generic_parameter_list s1 args with
        | none => simp [hrec1, hrec2] at hd
        | some res2 =>
          obtain ⟨dargs, s2⟩ := res2
          obtain ⟨hT2, hdargs⟩ :=
            (ih _ h2).2.2.2.1 s1 args dargs s2 (Nat.le_refl _) hT1 hrec2
          simp only [hrec1, hrec2] at hd
          by_cases hc : (ppBeq name new' && tyListBeq dargs args) = true
          · have hname : name = new' := ppBeq_eq.mp (band_elim hc).1
            have hargs : dargs = args := tyListBeq_eq.mp (band_elim hc).2
            have hfree : apSubstFree (AbsolutePath.path a name args) = true := by
              simp only [apSubstFree]
              rw [hname, ← hargs]
              simp [hnew, hdargs]
            by_cases hemp : args.isEmpty = true
            · simp only [hc, if_true, hemp] at hd
              obtain ⟨rfl, rfl⟩ := by
                simpa only [Option.some.injEq, Prod.mk.injEq] using hd
              exact ⟨hT2, hfree⟩
            · simp only [hc, if_true, hemp, if_false, Bool.false_eq_true] at hd
              obtain ⟨rfl, rfl⟩ := by
                simpa only [Option.some.injEq, Prod.mk.injEq] using hd
              exact ⟨TablesOK_alloc_ap hT2 hfree, hfree⟩
          · have hfree : apSubstFree (AbsolutePath.path s2.next_addr new' dargs) = true := by
              simp [apSubstFree, hnew, hdargs]
            by_cases hemp : args.isEmpty = true
            · simp only [hc, if_false, Bool.false_eq_true, hemp, if_true] at hd
              obtain ⟨rfl, rfl⟩ := by
                simpa only [Option.some.injEq, Prod.mk.injEq] using hd
              exact ⟨hT2, hfree⟩
            · simp only [hc, hemp, if_false, Bool.false_eq_true] at hd
              obtain ⟨rfl, rfl⟩ := by
                simpa only [Option.some.injEq, Prod.mk.injEq] using hd
              exact ⟨TablesOK_alloc_ap hT2 hfree, hfree⟩
    | subst a sid =>
      simp only [decompress_abs_path, arcNew] at hd
      cases hlk1 : lookupTable s.abs_paths sid with
      | some hit =>
        simp only [hlk1] at hd
        obtain ⟨rfl, rfl⟩ := by
          simpa only [Option.some.injEq, Prod.mk.injEq] using hd
        exact ⟨hT, TablesOK_lookup_ap hT hlk1⟩
      | none =>
        cases hlk2 : lookupTable s.path_prefixes sid with
        | none => simp [hlk1, hlk2] at hd
        | some pre =>
          simp only [hlk1, hlk2] at hd
          obtain ⟨rfl, rfl⟩ := by
            simpa only [Option.some.injEq, Prod.mk.injEq] using hd
          exact ⟨hT, by simp [apSubstFree, tyListSubstFree, TablesOK_lookup_pp hT hlk2]⟩
  · intro s t r s' hsz hT hd
    cases t with
    | basicType a b =>
      simp only [decompress_type] at hd
      obtain ⟨rfl, rfl⟩ := by
        simpa only [Option.some.injEq, Prod.mk.injEq] using hd
      exact ⟨hT, by simp [tySubstFree]⟩
    | ref a inner =>
      simp only [decompress_type, arcNew] at hd
      have hlt : sizeOf inner < n := by simp at hsz; omega
      cases hrec : decompress_type s inner with
      | none => simp [hrec] at hd
      | some res =>
        obtain ⟨di, s1⟩ := res
        obtain ⟨hT1, hdi⟩ := (ih _ hlt).2.2.1 s inner di s1 (Nat.le_refl _) hT hrec
        by_cases hbeq : tyBeq inner di = true
        · simp only [hrec, hbeq, if_true] at hd
          obtain ⟨rfl, rfl⟩ := by
            simpa only [Option.some.injEq, Prod.mk.injEq] using hd
          have hi : inner = di := tyBeq_eq.mp hbeq
          refine ⟨TablesOK_alloc_ty hT1 ?_, ?_⟩ <;>
            (simp only [tySubstFree]; rw [hi]; exact hdi)
        · simp only [hrec, hbeq, if_false, Bool.false_eq_true] at hd
          obtain ⟨rfl, rfl⟩ := by
            simpa only [Option.some.injEq, Prod.mk.injEq] using hd
          refine ⟨TablesOK_alloc_ty hT1 ?_, ?_⟩ <;>
            (simp only [tySubstFree]; exact hdi)
    | refMut a inner =>
      simp only [decompress_type, arcNew] at hd
      have hlt : sizeOf inner < n := by simp at hsz; omega
      cases hrec : decompress_type s inner with
      | none => simp [hrec] at hd
      | some res =>
        obtain ⟨di, s1⟩ := res
        obtain ⟨hT1, hdi⟩ := (ih _ hlt).2.2.1 s inner di s1 (Nat.le_refl _) hT hrec
        by_cases hbeq : tyBeq inner di = true
        · simp only [hrec, hbeq, if_true] at hd
          obtain ⟨rfl, rfl⟩ := by
            simpa only [Option.some.injEq, Prod.mk.injEq] using hd
          have hi : inner = di := tyBeq_eq.mp hbeq
          refine ⟨TablesOK_alloc_ty hT1 ?_, ?_⟩ <;>
            (simp only [tySubstFree]; rw [hi]; exact hdi)
        · simp only [hrec, hbeq, if_false, Bool.false_eq_true] at hd
          obtain ⟨rfl, rfl⟩ := by
            simpa only [Option.some.injEq, Prod.mk.injEq] using hd
          refine ⟨TablesOK_alloc_ty hT1 ?_, ?_⟩ <;>
            (simp only [tySubstFree]; exact hdi)
    | rawPtrConst a inner =>
      simp only [decompress_type, arcNew] at hd
      have hlt : sizeOf inner < n := by simp at hsz; omega
      cases hrec : decompress_type s inner with
      | none => simp [hrec] at hd
      | some res =>
        obtain ⟨di, s1⟩ := res
        obtain ⟨hT1, hdi⟩ := (ih _ hlt).2.2.1 s inner di s1 (Nat.le_refl _) hT hrec
        by_cases hbeq : tyBeq inner di = true
        · simp only [hrec, hbeq, if_true] at hd
          obtain ⟨rfl, rfl⟩ := by
            simpa only [Option.some.injEq, Prod.mk.injEq] using hd
          have hi : inner = di := tyBeq_eq.mp hbeq
          refine ⟨TablesOK_alloc_ty hT1 ?_, ?_⟩ <;>
            (simp only [tySubstFree]; rw [hi]; exact hdi)
        · simp only [hrec, hbeq, if_false, Bool.false_eq_true] at hd
          obtain ⟨rfl, rfl⟩ := by
            simpa only [Option.some.injEq, Prod.mk.injEq] using hd
          refine ⟨TablesOK_alloc_ty hT1 ?_, ?_⟩ <;>
            (simp only [tySubstFree]; exact hdi)
    | rawPtrMut a inner =>
      simp only [decompress_type, arcNew] at hd
      have hlt : sizeOf inner < n := by simp at hsz; omega
      cases hrec : decompress_type s inner with
      | none => simp [hrec] at hd
      | some res =>
        obtain ⟨di, s1⟩ := res
        obtain ⟨hT1, hdi⟩ := (ih _ hlt).2.2.1 s inner di s1 (Nat.le_refl _) hT hrec
        by_cases hbeq : tyBeq inner di = true
        · simp only [hrec, hbeq, if_true] at hd
          obtain ⟨rfl, rfl⟩ := by
            simpa only [Option.some.injEq, Prod.mk.injEq] using hd
          have hi : inner = di := tyBeq_eq.mp hbeq
          refine ⟨TablesOK_alloc_ty hT1 ?_, ?_⟩ <;>
            (simp only [tySubstFree]; rw [hi]; exact hdi)
        · simp only [hrec, hbeq, if_false, Bool.false_eq_true] at hd
          obtain ⟨rfl, rfl⟩ := by
            simpa only [Option.some.injEq, Prod.mk.injEq] using hd
          refine ⟨TablesOK_alloc_ty hT1 ?_, ?_⟩ <;>
            (simp only [tySubstFree]; exact hdi)
    | array a osz inner =>
      simp only [decompress_type, arcNew] at hd
      have hlt : sizeOf inner < n := by simp at hsz; omega
      cases hrec : decompress_type s inner with
      | none => simp [hrec] at hd
      | some res =>
        obtain ⟨di, s1⟩ := res
        obtain ⟨hT1, hdi⟩ := (ih _ hlt).2.2.1 s inner di s1 (Nat.le_refl _) hT hrec
        by_cases hbeq : tyBeq inner di = true
        · simp only [hrec, hbeq, if_true] at hd
          obtain ⟨rfl, rfl⟩ := by
            simpa only [Option.some.injEq, Prod.mk.injEq] using hd
          have hi : inner = di := tyBeq_eq.mp hbeq
          refine ⟨TablesOK_alloc_ty hT1 ?_, ?_⟩ <;>
            (simp only [tySubstFree]; rw [hi]; exact hdi)
        · simp only [hrec, hbeq, if_false, Bool.false_eq_true] at hd
          obtain ⟨rfl, rfl⟩ := by
            simpa only [Option.some.injEq, Prod.mk.injEq] using hd
          refine ⟨TablesOK_alloc_ty hT1 ?_, ?_⟩ <;>
            (simp only [tySubstFree]; exact hdi)
    | tuple a cs =>
      simp only [decompress_type, arcNew] at hd
      have hlt : sizeOf cs < n := by simp at hsz; omega
      cases hrec : decompress_generic_parameter_list s cs with
      | none => simp [hrec] at hd
      | some res =>
        obtain ⟨dcs, s1⟩ := res
        obtain ⟨hT1, hdcs⟩ :=
          (ih _ hlt).2.2.2.1 s cs dcs s1 (Nat.le_refl _) hT hrec
        by_cases hbeq : tyListBeq dcs cs = true
        · simp only [hrec, hbeq, if_true] at hd
          obtain ⟨rfl, rfl⟩ := by
            simpa only [Option.some.injEq, Prod.mk.injEq] using hd
          have hcs : dcs = cs := tyListBeq_eq.mp hbeq
          refine ⟨TablesOK_alloc_ty hT1 ?_, ?_⟩ <;>
            (simp only [tySubstFree]; rw [← hcs]; exact hdcs)
        · simp only [hrec, hbeq, if_false, Bool.false_eq_true] at hd
          obtain ⟨rfl, rfl⟩ := by
            simpa only [Option.some.injEq, Prod.mk.injEq] using hd
          refine ⟨TablesOK_alloc_ty hT1 ?_, ?_⟩ <;>
            (simp only [tySubstFree]; exact hdcs)
    | named a p =>
      simp only [decompress_type, arcNew] at hd
      have hlt : sizeOf p < n := by simp at hsz; omega
      cases hrec : decompress_abs_path s p with
      | none => simp [hrec] at hd
      | some res =>
        obtain ⟨dp, s1⟩ := res
        obtain ⟨hT1, hdp⟩ := (ih _ hlt).2.1 s p dp s1 (Nat.le_refl _) hT hrec
        by_cases hbeq : apBeq p dp = true
        · simp only [hrec, hbeq, if_true] at hd
          obtain ⟨rfl, rfl⟩ := by
            simpa only [Option.some.injEq, Prod.mk.injEq] using hd
          have hp : p = dp := apBeq_eq.mp hbeq
          exact ⟨hT1, by simp only [tySubstFree]; rw [hp]; exact hdp⟩
        · simp only [hrec, hbeq, if_false, Bool.false_eq_true] at hd
          obtain ⟨rfl, rfl⟩ := by
            simpa only [Option.some.injEq, Prod.mk.injEq] using hd
          exact ⟨hT1, by simp only [tySubstFree]; exact hdp⟩
    | fn a iu abi rt ps =>
      simp only [decompress_type, arcNew] at hd
      have h1 : sizeOf ps < n := by simp at hsz; omega
      have h2 : sizeOf rt < n := by simp at hsz; omega
      cases hrec1 : decompress_generic_parameter_list s ps with
      | none => simp [hrec1] at hd
      | some res1 =>
        obtain ⟨dps, s1⟩ := res1
        obtain ⟨hT1, hdps⟩ :=
          (ih _ h1).2.2.2.1 s ps dps s1 (Nat.le_refl _) hT hrec1
        cases hrec2 : decompress_opt_type s1 rt with
        | none => simp [hrec1, hrec2] at hd
        | some res2 =>
          obtain ⟨drt, s2⟩ := res2
          obtain ⟨hT2, hdrt⟩ :=
            (ih _ h2).2.2.2.2.2 s1 rt drt s2 (Nat.le_refl _) hT1 hrec2
          simp only [hrec1, hrec2] at hd
          by_cases hc : (tyOptBeq rt drt && tyListBeq dps ps) = true
          · have hrt : rt = drt := tyOptBeq_eq.mp (band_elim hc).1
            have hps : dps = ps := tyListBeq_eq.mp (band_elim hc).2
            simp only [hc, if_true] at hd
            obtain ⟨rfl, rfl⟩ := by
              simpa only [Option.some.injEq, Prod.mk.injEq] using hd
            have hfree : tySubstFree (Ty.fn a iu abi rt ps) = true := by
              simp only [tySubstFree]
              rw [hrt, ← hps]
              simp [hdrt, hdps]
            exact ⟨TablesOK_alloc_ty hT2 hfree, hfree⟩
          · simp only [hc, if_false, Bool.false_eq_true] at hd
            obtain ⟨rfl, rfl⟩ := by
              simpa only [Option.some.injEq, Prod.mk.injEq] using hd
            have hfree : tySubstFree (Ty.fn s2.next_addr iu abi drt dps) = true := by
              simp [tySubstFree, hdrt, hdps]
            exact ⟨TablesOK_alloc_ty hT2 hfree, hfree⟩
    | genericParam a i =>
      simp only [decompress_type] at hd
      obtain ⟨rfl, rfl⟩ := by
        simpa only [Option.some.injEq, Prod.mk.injEq] using hd
      exact ⟨TablesOK_alloc_ty hT (by simp [tySubstFree]), by simp [tySubstFree]⟩
    | subst a sid =>
      simp only [decompress_type, arcNew] at hd
      cases hlk1 : lookupTable s.types sid with
      | some hit =>
        simp only [hlk1] at hd
        obtain ⟨rfl, rfl⟩ := by
          simpa only [Option.some.injEq, Prod.mk.injEq] using hd
        exact ⟨hT, TablesOK_lookup_ty hT hlk1⟩
      | none =>
        cases hlk2 : lookupTable s.abs_paths sid with
        | some hit =>
          simp only [hlk1, hlk2] at hd
          obtain ⟨rfl, rfl⟩ := by
            simpa only [Option.some.injEq, Prod.mk.injEq] using hd
          exact ⟨hT, by simp [tySubstFree, TablesOK_lookup_ap hT hlk2]⟩
        | none =>
          cases hlk3 : lookupTable s.path_prefixes sid with
          | none => simp [hlk1, hlk2, hlk3] at hd
          | some pre =>
            simp only [hlk1, hlk2, hlk3] at hd
            obtain ⟨rfl, rfl⟩ := by
              simpa only [Option.some.injEq, Prod.mk.injEq] using hd
            exact ⟨hT, by
              simp [tySubstFree, apSubstFree, tyListSubstFree,
                TablesOK_lookup_pp hT hlk3]⟩
  · intro s ts rs s' hsz hT hd
    cases ts with
    | nil =>
      simp only [decompress_generic_parameter_list] at hd
      obtain ⟨rfl, rfl⟩ := by
        simpa only [Option.some.injEq, Prod.mk.injEq] using hd
      exact ⟨hT, by simp [tyListSubstFree]⟩
    | cons t rest =>
      simp only [decompress_generic_parameter_list] at hd
      have h1 : sizeOf t < n := by simp at hsz; omega
      have h2 : sizeOf rest < n := by simp at hsz; omega
      cases hrec1 : decompress_type s t with
      | none => simp [hrec1] at hd
      | some res1 =>
        obtain ⟨dt, s1⟩ := res1
        obtain ⟨hT1, hdt⟩ := (ih _ h1).2.2.1 s t dt s1 (Nat.le_refl _) hT hrec1
        cases hrec2 : decompress_generic_parameter_list s1 rest with
        | none => simp [hrec1, hrec2] at hd
        | some res2 =>
          obtain ⟨drest, s2⟩ := res2
          obtain ⟨hT2, hdrest⟩ :=
            (ih _ h2).2.2.2.1 s1 rest drest s2 (Nat.le_refl _) hT1 hrec2
          simp only [hrec1, hrec2] at hd
          obtain ⟨rfl, rfl⟩ := by
            simpa only [Option.some.injEq, Prod.mk.injEq] using hd
          exact ⟨hT2, by simp [tyListSubstFree, hdt, hdrest]⟩
  · intro s op r s' hsz hT hd
    cases op with
    | none =>
      simp only [decompress_opt_abs_path] at hd
      obtain ⟨rfl, rfl⟩ := by
        simpa only [Option.some.injEq, Prod.mk.injEq] using hd
      exact ⟨hT, by simp [apOptSubstFree]⟩
    | some p =>
      simp only [decompress_opt_abs_path] at hd
      have h1 : sizeOf p < n := by simp at hsz; omega
      cases hrec : decompress_abs_path s p with
      | none => simp [hrec] at hd
      | some res =>
        obtain ⟨dp, s1⟩ := res
        obtain ⟨hT1, hdp⟩ := (ih _ h1).2.1 s p dp s1 (Nat.le_refl _) hT hrec
        simp only [hrec] at hd
        obtain ⟨rfl, rfl⟩ := by
          simpa only [Option.some.injEq, Prod.mk.injEq] using hd
        exact ⟨hT1, by simp [apOptSubstFree, hdp]⟩
  · intro s ot r s' hsz hT hd
    cases ot with
    | none =>
      simp only [decompress_opt_type] at hd
      obtain ⟨rfl, rfl⟩ := by
        simpa only [Option.some.injEq, Prod.mk.injEq] using hd
      exact ⟨hT, by simp [tyOptSubstFree]⟩
    | some t =>
      simp only [decompress_opt_type] at hd
      have h1 : sizeOf t < n := by simp at hsz; omega
      cases hrec : decompress_type s t with
      | none => simp [hrec] at hd
      | some res =>
        obtain ⟨dt, s1⟩ := res
        obtain ⟨hT1, hdt⟩ := (ih _ h1).2.2.1 s t dt s1 (Nat.le_refl _) hT hrec
        simp only [hrec] at hd
        obtain ⟨rfl, rfl⟩ := by
          simpa only [Option.some.injEq, Prod.mk.injEq] using hd
        exact ⟨hT1, by simp [tyOptSubstFree, hdt]⟩

theorem preserves_refl (s : DState) : Preserves s s :=
  ⟨fun _ _ h => h, fun _ _ h => h, fun _ _ h => h⟩

theorem preserves_trans {s1 s2 s3 : DState} (h12 : Preserves s1 s2)
    (h23 : Preserves s2 s3) : Preserves s1 s3 :=
  ⟨fun k v h => h23.1 k v (h12.1 k v h),
   fun k v h => h23.2.1 k v (h12.2.1 k v h),
   fun k v h => h23.2.2 k v (h12.2.2 k v h)⟩

theorem step_refl (s : DState) :
    s.subst_counter ≤ s.subst_counter ∧
      (KeysBelow s → KeysBelow s ∧ Preserves s s) :=
  ⟨Nat.le_refl _, fun hK => ⟨hK, preserves_refl s⟩⟩

theorem step_trans {s1 s2 s3 : DState}
    (h12 : s1.subst_counter ≤ s2.subst_counter ∧
      (KeysBelow s1 → KeysBelow s2 ∧ Preserves s1 s2))
    (h23 : s2.subst_counter ≤ s3.subst_counter ∧
      (KeysBelow s2 → KeysBelow s3 ∧ Preserves s2 s3)) :
    s1.subst_counter ≤ s3.subst_counter ∧
      (KeysBelow s1 → KeysBelow s3 ∧ Preserves s1 s3) := by
  refine ⟨Nat.le_trans h12.1 h23.1, fun hK => ?_⟩
  obtain ⟨hK2, hP12⟩ := h12.2 hK
  obtain ⟨hK3, hP23⟩ := h23.2 hK2
  exact ⟨hK3, preserves_trans hP12 hP23⟩

theorem lookup_key_lt {α : Type} {m : List (Nat × α)} {c k : Nat} {v : α}
    (hK : ∀ kv ∈ m, kv.1 < c) (h : lookupTable m k = some v) : k < c :=
  hK (k, v) (lookupTable_mem h)

theorem step_alloc_pp (node : PathPrefix) (s : DState) :
    s.subst_counter ≤ (alloc_subst_path_prefixes node s).subst_counter ∧
      (KeysBelow s → KeysBelow (alloc_subst_path_prefixes node s) ∧
        Preserves s (alloc_subst_path_prefixes node s)) := by
  refine ⟨Nat.le_succ _, fun hK => ⟨⟨?_, ?_, ?_⟩, ⟨?_, ?_, ?_⟩⟩⟩
  · intro kv hkv
    rcases List.mem_cons.1 hkv with h | h
    · rw [h]; exact Nat.lt_succ_self _
    · exact Nat.lt_succ_of_lt (hK.1 _ h)
  · exact fun kv h => Nat.lt_succ_of_lt (hK.2.1 _ h)
  · exact fun kv h => Nat.lt_succ_of_lt (hK.2.2 _ h)
  · intro k v h
    have hk : k < s.subst_counter := lookup_key_lt hK.1 h
    show lookupTable ((s.subst_counter, node) :: s.path_prefixes) k = some v
    rw [lookupTable_cons_ne node s.path_prefixes (by omega)]
    exact h
  · exact fun k v h => h
  · exact fun k v h => h

theorem step_alloc_ap (node : AbsolutePath) (s : DState) :
    s.subst_counter ≤ (alloc_subst_abs_paths node s).subst_counter ∧
      (KeysBelow s → KeysBelow (alloc_subst_abs_paths node s) ∧
        Preserves s (alloc_subst_abs_paths node s)) := by
  refine ⟨Nat.le_succ _, fun hK => ⟨⟨?_, ?_, ?_⟩, ⟨?_, ?_, ?_⟩⟩⟩
  · exact fun kv h => Nat.lt_succ_of_lt (hK.1 _ h)
  · intro kv hkv
    rcases List.mem_cons.1 hkv with h | h
    · rw [h]; exact Nat.lt_succ_self _
    · exact Nat.lt_succ_of_lt (hK.2.1 _ h)
  · exact fun kv h => Nat.lt_succ_of_lt (hK.2.2 _ h)
  · exact fun k v h => h
  · intro k v h
    have hk : k < s.subst_counter := lookup_key_lt hK.2.1 h
    show lookupTable ((s.subst_counter, node) :: s.abs_paths) k = some v
    rw [lookupTable_cons_ne node s.abs_paths (by omega)]
    exact h
  · exact fun k v h => h

theorem step_alloc_ty (node : Ty) (s : DState) :
    s.subst_counter ≤ (alloc_subst_types node s).subst_counter ∧
      (KeysBelow s → KeysBelow (alloc_subst_types node s) ∧
        Preserves s (alloc_subst_types node s)) := by
  refine ⟨Nat.le_succ _, fun hK => ⟨⟨?_, ?_, ?_⟩, ⟨?_, ?_, ?_⟩⟩⟩
  · exact fun kv h => Nat.lt_succ_of_lt (hK.1 _ h)
  · exact fun kv h => Nat.lt_succ_of_lt (hK.2.1 _ h)
  · intro kv hkv
    rcases List.mem_cons.1 hkv with h | h
    · rw [h]; exact Nat.lt_succ_self _
    · exact Nat.lt_succ_of_lt (hK.2.2 _ h)
  · exact fun k v h => h
  · exact fun k v h => h
  · intro k v h
    have hk : k < s.subst_counter := lookup_key_lt hK.2.2 h
    show lookupTable ((s.subst_counter, node) :: s.types) k = some v
    rw [lookupTable_cons_ne node s.types (by omega)]
    exact h

theorem step_bump_addr (s : DState) (m : Nat) :
    s.subst_counter ≤ (DState.mk s.path_prefixes s.abs_paths s.types
        s.subst_counter m).subst_counter ∧
      (KeysBelow s → KeysBelow (DState.mk s.path_prefixes s.abs_paths s.types
        s.subst_counter m) ∧ Preserves s (DState.mk s.path_prefixes s.abs_paths
        s.types s.subst_counter m)) :=
  ⟨Nat.le_refl _, fun hK => ⟨hK, preserves_refl s⟩⟩

theorem mono_master : ∀ n : Nat,
    (∀ s p r s', sizeOf p ≤ n →
      decompress_path_prefix s p = some (r, s') →
      s.subst_counter ≤ s'.subst_counter ∧
        (KeysBelow s → KeysBelow s' ∧ Preserves s s')) ∧
    (∀ s ap r s', sizeOf ap ≤ n →
      decompress_abs_path s ap = some (r, s') →
      s.subst_counter ≤ s'.subst_counter ∧
        (KeysBelow s → KeysBelow s' ∧ Preserves s s')) ∧
    (∀ s t r s', sizeOf t ≤ n →
      decompress_type s t = some (r, s') →
      s.subst_counter ≤ s'.subst_counter ∧
        (KeysBelow s → KeysBelow s' ∧ Preserves s s')) ∧
    (∀ s ts rs s', sizeOf ts ≤ n →
      decompress_generic_parameter_list s ts = some (rs, s') →
      s.subst_counter ≤ s'.subst_counter ∧
        (KeysBelow s → KeysBelow s' ∧ Preserves s s')) ∧
    (∀ s op r s', sizeOf op ≤ n →
      decompress_opt_abs_path s op = some (r, s') →
      s.subst_counter ≤ s'.subst_counter ∧
        (KeysBelow s → KeysBelow s' ∧ Preserves s s')) ∧
    (∀ s ot r s', sizeOf ot ≤ n →
      decompress_opt_type s ot = some (r, s') →
      s.subst_counter ≤ s'.subst_counter ∧
        (KeysBelow s → KeysBelow s' ∧ Preserves s s')) := by
  intro n
  induction n using Nat.strong_induction_on with
  | _ n ih =>
  refine ⟨?_, ?_, ?_, ?_, ?_, ?_⟩
  · intro s p r s' hsz hd
    cases p with
    | crateId a d =>
      simp only [ decompress_path_prefix] at hd
      obtain ⟨rfl, rfl⟩ := by
        simpa only [Option.some.injEq, Prod.mk.injEq] using hd
      exact step_alloc_pp _ s
    | traitImpl a st it dis =>
      simp only [ decompress_path_prefix, arcNew] at hd
      have h1 : sizeOf st < n := by simp at hsz; omega
      have h2 : sizeOf it < n := by simp at hsz; omega
      cases hrec1 : decompress_type s st with
      | none => simp [hrec1] at hd
      | some res1 =>
        obtain ⟨dst, s1⟩ := res1
        have st1 := (ih _ h1).2.2.1 s st dst s1 (Nat.le_refl _) hrec1
        cases hrec2 : decompress_opt_abs_path s1 it with
        | none => simp [hrec1, hrec2] at hd
        | some res2 =>
          obtain ⟨dit, s2⟩ := res2
          have st2 := (ih _ h2).2.2.2.2.1 s1 it dit s2 (Nat.le_refl _) hrec2
          simp only [hrec1, hrec2] at hd
          obtain ⟨rfl, rfl⟩ := by
            simpa only [Option.some.injEq, Prod.mk.injEq] using hd
          exact step_trans st1 (step_trans st2
            (step_trans (step_bump_addr s2 _) (step_alloc_pp _ _)))
    | node a pre ident =>
      simp only [ decompress_path_prefix, arcNew] at hd
      have hlt : sizeOf pre < n := by simp at hsz; omega
      cases hrec : decompress_path_prefix s pre with
      | none => simp [hrec] at hd
      | some res =>
        obtain ⟨dp, s1⟩ := res
        have st1 := (ih _ hlt).1 s pre dp s1 (Nat.le_refl _) hrec
        by_cases hbeq : ppBeq pre dp = true
        · simp only [hrec, hbeq, if_true] at hd
          obtain ⟨rfl, rfl⟩ := by
            simpa only [Option.some.injEq, Prod.mk.injEq] using hd
          exact step_trans st1 (step_alloc_pp _ _)
        · simp only [hrec, hbeq, if_false, Bool.false_eq_true] at hd
          obtain ⟨rfl, rfl⟩ := by
            simpa only [Option.some.injEq, Prod.mk.injEq] using hd
          exact step_trans st1 (step_trans (step_bump_addr s1 _) (step_alloc_pp _ _))
    | subst a sid =>
      simp only [ decompress_path_prefix] at hd
      cases hlk : lookupTable s.path_prefixes sid with
      | none => simp [hlk] at hd
      | some hit =>
        simp only [hlk] at hd
        obtain ⟨rfl, rfl⟩ := by
          simpa only [Option.some.injEq, Prod.mk.injEq] using hd
        exact step_refl s
  · intro s ap r s' hsz hd
    cases ap with
    | path a name args =>
      simp only [decompress_abs_path, arcNew] at hd
      have h1 : sizeOf name < n := by simp at hsz; omega
      have h2 : sizeOf args < n := by simp at hsz; omega
      cases hrec1 : decompress_path_prefix s name with
      | none => simp [hrec1] at hd
      | some res1 =>
        obtain ⟨new', s1⟩ := res1
        have st1 := (ih _ h1).1 s name new' s1 (Nat.le_refl _) hrec1
        cases hrec2 : decompress_generic_parameter_list s1 args with
        | none => simp [hrec1, hrec2] at hd
        | some res2 =>
          obtain ⟨dargs, s2⟩ := res2
          have st2 := (ih _ h2).2.2.2.1 s1 args dargs s2 (Nat.le_refl _) hrec2
          simp only [hrec1, hrec2] at hd
          by_cases hc : (ppBeq name new' && tyListBeq dargs args) = true
          · by_cases hemp : args.isEmpty = true
            · simp only [hc, if_true, hemp] at hd
              obtain ⟨rfl, rfl⟩ := by
                simpa only [Option.some.injEq, Prod.mk.injEq] using hd
              exact step_trans st1 st2
            · simp only [hc, if_true, hemp, if_false, Bool.false_eq_true] at hd
              obtain ⟨rfl, rfl⟩ := by
                simpa only [Option.some.injEq, Prod.mk.injEq] using hd
              exact step_trans st1 (step_trans st2 (step_alloc_ap _ _))
          · by_cases hemp : args.isEmpty = true
            · simp only [hc, if_false, Bool.false_eq_true, hemp, if_true] at hd
              obtain ⟨rfl, rfl⟩ := by
                simpa only [Option.some.injEq, Prod.mk.injEq] using hd
              exact step_trans st1 (step_trans st2 (step_bump_addr s2 _))
            · simp only [hc, hemp, if_false, Bool.false_eq_true] at hd
              obtain ⟨rfl, rfl⟩ := by
                simpa only [Option.some.injEq, Prod.mk.injEq] using hd
              exact step_trans st1 (step_trans st2
                (step_trans (step_bump_addr s2 _) (step_alloc_ap _ _)))
    | subst a sid =>
      simp only [decompress_abs_path, arcNew] at hd
      cases hlk1 : lookupTable s.abs_paths sid with
      | some hit =>
        simp only [hlk1] at hd
        obtain ⟨rfl, rfl⟩ := by
          simpa only [Option.some.injEq, Prod.mk.injEq] using hd
        exact step_refl s
      | none =>
        cases hlk2 : lookupTable s.path_prefixes sid with
        | none => simp [hlk1, hlk2] at hd
        | some pre =>
          simp only [hlk1, hlk2] at hd
          obtain ⟨rfl, rfl⟩ := by
            simpa only [Option.some.injEq, Prod.mk.injEq] using hd
          exact step_bump_addr s _
  · intro s t r s' hsz hd
    cases t with
    | basicType a b =>
      simp only [decompress_type] at hd
      obtain ⟨rfl, rfl⟩ := by
        simpa only [Option.some.injEq, Prod.mk.injEq] using hd
      exact step_refl s
    | ref a inner =>
      simp only [decompress_type, arcNew] at hd
      have hlt : sizeOf inner < n := by simp at hsz; omega
      cases hrec : decompress_type s inner with
      | none => simp [hrec] at hd
      | some res =>
        obtain ⟨di, s1⟩ := res
        have st1 := (ih _ hlt).2.2.1 s inner di s1 (Nat.le_refl _) hrec
        by_cases hbeq : tyBeq inner di = true
        · simp only [hrec, hbeq, if_true] at hd
          obtain ⟨rfl, rfl⟩ := by
            simpa only [Option.some.injEq, Prod.mk.injEq] using hd
          exact step_trans st1 (step_alloc_ty _ _)
        · simp only [hrec, hbeq, if_false, Bool.false_eq_true] at hd
          obtain ⟨rfl, rfl⟩ := by
            simpa only [Option.some.injEq, Prod.mk.injEq] using hd
          exact step_trans st1 (step_trans (step_bump_addr s1 _) (step_alloc_ty _ _))
    | refMut a inner =>
      simp only [decompress_type, arcNew] at hd
      have hlt : sizeOf inner < n := by simp at hsz; omega
      cases hrec : decompress_type s inner with
      | none => simp [hrec] at hd
      | some res =>
        obtain ⟨di, s1⟩ := res
        have st1 := (ih _ hlt).2.2.1 s inner di s1 (Nat.le_refl _) hrec
        by_cases hbeq : tyBeq inner di = true
        · simp only [hrec, hbeq, if_true] at hd
          obtain ⟨rfl, rfl⟩ := by
            simpa only [Option.some.injEq, Prod.mk.injEq] using hd
          exact step_trans st1 (step_alloc_ty _ _)
        · simp only [hrec, hbeq, if_false, Bool.false_eq_true] at hd
          obtain ⟨rfl, rfl⟩ := by
            simpa only [Option.some.injEq, Prod.mk.injEq] using hd
          exact step_trans st1 (step_trans (step_bump_addr s1 _) (step_alloc_ty _ _))
    | rawPtrConst a inner =>
      simp only [decompress_type, arcNew] at hd
      have hlt : sizeOf inner < n := by simp at hsz; omega
      cases hrec : decompress_type s inner with
      | none => simp [hrec] at hd
      | some res =>
        obtain ⟨di, s1⟩ := res
        have st1 := (ih _ hlt).2.2.1 s inner di s1 (Nat.le_refl _) hrec
        by_cases hbeq : tyBeq inner di = true
        · simp only [hrec, hbeq, if_true] at hd
          obtain ⟨rfl, rfl⟩ := by
            simpa only [Option.some.injEq, Prod.mk.injEq] using hd
          exact step_trans st1 (step_alloc_ty _ _)
        · simp only [hrec, hbeq, if_false, Bool.false_eq_true] at hd
          obtain ⟨rfl, rfl⟩ := by
            simpa only [Option.some.injEq, Prod.mk.injEq] using hd
          exact step_trans st1 (step_trans (step_bump_addr s1 _) (step_alloc_ty _ _))
    | rawPtrMut a inner =>
      simp only [decompress_type, arcNew] at hd
      have hlt : sizeOf inner < n := by simp at hsz; omega
      cases hrec : decompress_type s inner with
      | none => simp [hrec] at hd
      | some res =>
        obtain ⟨di, s1⟩ := res
        have st1 := (ih _ hlt).2.2.1 s inner di s1 (Nat.le_refl _) hrec
        by_cases hbeq : tyBeq inner di = true
        · simp only [hrec, hbeq, if_true] at hd
          obtain ⟨rfl, rfl⟩ := by
            simpa only [Option.some.injEq, Prod.mk.injEq] using hd
          exact step_trans st1 (step_alloc_ty _ _)
        · simp only [hrec, hbeq, if_false, Bool.false_eq_true] at hd
          obtain ⟨rfl, rfl⟩ := by
            simpa only [Option.some.injEq, Prod.mk.injEq] using hd
          exact step_trans st1 (step_trans (step_bump_addr s1 _) (step_alloc_ty _ _))
    | array a osz inner =>
      simp only [decompress_type, arcNew] at hd
      have hlt : sizeOf inner < n := by simp at hsz; omega
      cases hrec : decompress_type s inner with
      | none => simp [hrec] at hd
      | some res =>
        obtain ⟨di, s1⟩ := res
        have st1 := (ih _ hlt).2.2.1 s inner di s1 (Nat.le_refl _) hrec
        by_cases hbeq : tyBeq inner di = true
        · simp only [hrec, hbeq, if_true] at hd
          obtain ⟨rfl, rfl⟩ := by
            simpa only [Option.some.injEq, Prod.mk.injEq] using hd
          exact step_trans st1 (step_alloc_ty _ _)
        · simp only [hrec, hbeq, if_false, Bool.false_eq_true] at hd
          obtain ⟨rfl, rfl⟩ := by
            simpa only [Option.some.injEq, Prod.mk.injEq] using hd
          exact step_trans st1 (step_trans (step_bump_addr s1 _) (step_alloc_ty _ _))
    | tuple a cs =>
      simp only [decompress_type, arcNew] at hd
      have hlt : sizeOf cs < n := by simp at hsz; omega
      cases hrec : decompress_generic_parameter_list s cs with
      | none => simp [hrec] at hd
      | some res =>
        obtain ⟨dcs, s1⟩ := res
        have st1 := (ih _ hlt).2.2.2.1 s cs dcs s1 (Nat.le_refl _) hrec
        by_cases hbeq : tyListBeq dcs cs = true
        · simp only [hrec, hbeq, if_true] at hd
          obtain ⟨rfl, rfl⟩ := by
            simpa only [Option.some.injEq, Prod.mk.injEq] using hd
          exact step_trans st1 (step_alloc_ty _ _)
        · simp only [hrec, hbeq, if_false, Bool.false_eq_true] at hd
          obtain ⟨rfl, rfl⟩ := by
            simpa only [Option.some.injEq, Prod.mk.injEq] using hd
          exact step_trans st1 (step_trans (step_bump_addr s1 _) (step_alloc_ty _ _))
    | named a p =>
      simp only [decompress_type, arcNew] at hd
      have hlt : sizeOf p < n := by simp at hsz; omega
      cases hrec : decompress_abs_path s p with
      | none => simp [hrec] at hd
      | some res =>
        obtain ⟨dp, s1⟩ := res
        have st1 := (ih _ hlt).2.1 s p dp s1 (Nat.le_refl _) hrec
        by_cases hbeq : apBeq p dp = true
        · simp only [hrec, hbeq, if_true] at hd
          obtain ⟨rfl, rfl⟩ := by
            simpa only [Option.some.injEq, Prod.mk.injEq] using hd
          exact st1
        · simp only [hrec, hbeq, if_false, Bool.false_eq_true] at hd
          obtain ⟨rfl, rfl⟩ := by
            simpa only [Option.some.injEq, Prod.mk.injEq] using hd
          exact step_trans st1 (step_bump_addr s1 _)
    | fn a iu abi rt ps =>
      simp only [decompress_type, arcNew] at hd
      have h1 : sizeOf ps < n := by simp at hsz; omega
      have h2 : sizeOf rt < n := by simp at hsz; omega
      cases hrec1 : decompress_generic_parameter_list s ps with
      | none => simp [hrec1] at hd
      | some res1 =>
        obtain ⟨dps, s1⟩ := res1
        have st1 := (ih _ h1).2.2.2.1 s ps dps s1 (Nat.le_refl _) hrec1
        cases hrec2 : decompress_opt_type s1 rt with
        | none => simp [hrec1, hrec2] at hd
        | some res2 =>
          obtain ⟨drt, s2⟩ := res2
          have st2 := (ih _ h2).2.2.2.2.2 s1 rt drt s2 (Nat.le_refl _) hrec2
          simp only [hrec1, hrec2] at hd
          by_cases hc : (tyOptBeq rt drt && tyListBeq dps ps) = true
          · simp only [hc, if_true] at hd
            obtain ⟨rfl, rfl⟩ := by
              simpa only [Option.some.injEq, Prod.mk.injEq] using hd
            exact step_trans st1 (step_trans st2 (step_alloc_ty _ _))
          · simp only [hc, if_false, Bool.false_eq_true] at hd
            obtain ⟨rfl, rfl⟩ := by
              simpa only [Option.some.injEq, Prod.mk.injEq] using hd
            exact step_trans st1 (step_trans st2
              (step_trans (step_bump_addr s2 _) (step_alloc_ty _ _)))
    | genericParam a i =>
      simp only [decompress_type] at hd
      obtain ⟨rfl, rfl⟩ := by
        simpa only [Option.some.injEq, Prod.mk.injEq] using hd
      exact step_alloc_ty _ s
    | subst a sid =>
      simp only [decompress_type, arcNew] at hd
      cases hlk1 : lookupTable s.types sid with
      | some hit =>
        simp only [hlk1] at hd
        obtain ⟨rfl, rfl⟩ := by
          simpa only [Option.some.injEq, Prod.mk.injEq] using hd
        exact step_refl s
      | none =>
        cases hlk2 : lookupTable s.abs_paths sid with
        | some hit =>
          simp only [hlk1, hlk2] at hd
          obtain ⟨rfl, rfl⟩ := by
            simpa only [Option.some.injEq, Prod.mk.injEq] using hd
          exact step_bump_addr s _
        | none =>
          cases hlk3 : lookupTable s.path_prefixes sid with
          | none => simp [hlk1, hlk2, hlk3] at hd
          | some pre =>
            simp only [hlk1, hlk2, hlk3] at hd
            obtain ⟨rfl, rfl⟩ := by
              simpa only [Option.some.injEq, Prod.mk.injEq] using hd
            exact step_trans (step_bump_addr s _) (step_bump_addr _ _)
  · intro s ts rs s' hsz hd
    cases ts with
    | nil =>
      simp only [decompress_generic_parameter_list] at hd
      obtain ⟨rfl, rfl⟩ := by
        simpa only [Option.some.injEq, Prod.mk.injEq] using hd
      exact step_refl s
    | cons t rest =>
      simp only [decompress_generic_parameter_list] at hd
      have h1 : sizeOf t < n := by simp at hsz; omega
      have h2 : sizeOf rest < n := by simp at hsz; omega
      cases hrec1 : decompress_type s t with
      | none => simp [hrec1] at hd
      | some res1 =>
        obtain ⟨dt, s1⟩ := res1
        have st1 := (ih _ h1).2.2.1 s t dt s1 (Nat.le_refl _) hrec1
        cases hrec2 : decompress_generic_parameter_list s1 rest with
        | none => simp [hrec1, hrec2] at hd
        | some res2 =>
          obtain ⟨drest, s2⟩ := res2
          have st2 := (ih _ h2).2.2.2.1 s1 rest drest s2 (Nat.le_refl _) hrec2
          simp only [hrec1, hrec2] at hd
          obtain ⟨rfl, rfl⟩ := by
            simpa only [Option.some.injEq, Prod.mk.injEq] using hd
          exact step_trans st1 st2
  · intro s op r s' hsz hd
    cases op with
    | none =>
      simp only [decompress_opt_abs_path] at hd
      obtain ⟨rfl, rfl⟩ := by
        simpa only [Option.some.injEq, Prod.mk.injEq] using hd
      exact step_refl s
    | some p =>
      simp only [decompress_opt_abs_path] at hd
      have h1 : sizeOf p < n := by simp at hsz; omega
      cases hrec : decompress_abs_path s p with
      | none => simp [hrec] at hd
      | some res =>
        obtain ⟨dp, s1⟩ := res
        have st1 := (ih _ h1).2.1 s p dp s1 (Nat.le_refl _) hrec
        simp only [hrec] at hd
        obtain ⟨rfl, rfl⟩ := by
          simpa only [Option.some.injEq, Prod.mk.injEq] using hd
        exact st1
  · intro s ot r s' hsz hd
    cases ot with
    | none =>
      simp only [decompress_opt_type] at hd
      obtain ⟨rfl, rfl⟩ := by
        simpa only [Option.some.injEq, Prod.mk.injEq] using hd
      exact step_refl s
    | some t =>
      simp only [decompress_opt_type] at hd
      have h1 : sizeOf t < n := by simp at hsz; omega
      cases hrec : decompress_type s t with
      | none => simp [hrec] at hd
      | some res =>
        obtain ⟨dt, s1⟩ := res
        have st1 := (ih _ h1).2.2.1 s t dt s1 (Nat.le_refl _) hrec
        simp only [hrec] at hd
        obtain ⟨rfl, rfl⟩ := by
          simpa only [Option.some.injEq, Prod.mk.injEq] using hd
        exact st1

theorem pp_size_pos (p : PathPrefix) : 0 < sizeOf p := by
  cases p <;> simp

theorem ap_size_pos (p : AbsolutePath) : 0 < sizeOf p := by
  cases p <;> simp

theorem ty_size_pos (t : Ty) : 0 < sizeOf t := by
  cases t <;> simp

theorem tyList_size_pos (ts : List Ty) : 0 < sizeOf ts := by
  cases ts <;> simp

theorem apOpt_size_pos (op : Option AbsolutePath) : 0 < sizeOf op := by
  cases op <;> simp

theorem tyOpt_size_pos (ot : Option Ty) : 0 < sizeOf ot := by
  cases ot <;> simp

theorem fuel_adequacy_master : ∀ fuel : Nat,
    (∀ s p, sizeOf p ≤ fuel →
      decompress_path_prefix_fuel fuel s p = decompress_path_prefix s p) ∧
    (∀ s ap, sizeOf ap ≤ fuel →
      decompress_abs_path_fuel fuel s ap = decompress_abs_path s ap) ∧
    (∀ s t, sizeOf t ≤ fuel →
      decompress_type_fuel fuel s t = decompress_type s t) ∧
    (∀ s ts, sizeOf ts ≤ fuel →
      decompress_generic_parameter_list_fuel fuel s ts =
        decompress_generic_parameter_list s ts) ∧
    (∀ s op, sizeOf op ≤ fuel →
      decompress_opt_abs_path_fuel fuel s op = decompress_opt_abs_path s op) ∧
    (∀ s ot, sizeOf ot ≤ fuel →
      decompress_opt_type_fuel fuel s ot = decompress_opt_type s ot) := by
  intro fuel
  induction fuel using Nat.strong_induction_on with
  | _ fuel ih =>
  cases fuel with
  | zero =>
    refine ⟨?_, ?_, ?_, ?_, ?_, ?_⟩
    · intro s p hsz
      exact absurd hsz (by have := pp_size_pos p; omega)
    · intro s p hsz
      exact absurd hsz (by have := ap_size_pos p; omega)
    · intro s t hsz
      exact absurd hsz (by have := ty_size_pos t; omega)
    · intro s ts hsz
      exact absurd hsz (by have := tyList_size_pos ts; omega)
    · intro s op hsz
      exact absurd hsz (by have := apOpt_size_pos op; omega)
    · intro s ot hsz
      exact absurd hsz (by have := tyOpt_size_pos ot; omega)
  | succ f =>
  refine ⟨?_, ?_, ?_, ?_, ?_, ?_⟩
  · intro s p hsz
    cases p with
    | crateId a d => simp only [ decompress_path_prefix_fuel, decompress_path_prefix]
    | traitImpl a st it dis =>
      have h1 : sizeOf st ≤ f := by simp at hsz; omega
      have h2 : sizeOf it ≤ f := by simp at hsz; omega
      have e1 : ∀ s0, decompress_type_fuel f s0 st = decompress_type s0 st :=
        fun s0 => (ih f (Nat.lt_succ_self f)).2.2.1 s0 st h1
      have e2 : ∀ s0, decompress_opt_abs_path_fuel f s0 it =
          decompress_opt_abs_path s0 it :=
        fun s0 => (ih f (Nat.lt_succ_self f)).2.2.2.2.1 s0 it h2
      simp only [ decompress_path_prefix_fuel, decompress_path_prefix, e1, e2]
    | node a pre ident =>
      have h1 : sizeOf pre ≤ f := by simp at hsz; omega
      have e1 : ∀ s0, decompress_path_prefix_fuel f s0 pre =
          decompress_path_prefix s0 pre :=
        fun s0 => (ih f (Nat.lt_succ_self f)).1 s0 pre h1
      simp only [ decompress_path_prefix_fuel, decompress_path_prefix, e1]
    | subst a sid =>
      simp only [ decompress_path_prefix_fuel, decompress_path_prefix]
  · intro s p hsz
    cases p with
    | path a name args =>
      have h1 : sizeOf name ≤ f := by simp at hsz; omega
      have h2 : sizeOf args ≤ f := by simp at hsz; omega
      have e1 : ∀ s0, decompress_path_prefix_fuel f s0 name =
          decompress_path_prefix s0 name :=
        fun s0 => (ih f (Nat.lt_succ_self f)).1 s0 name h1
      have e2 : ∀ s0, decompress_generic_parameter_list_fuel f s0 args =
          decompress_generic_parameter_list s0 args :=
        fun s0 => (ih f (Nat.lt_succ_self f)).2.2.2.1 s0 args h2
      simp only [decompress_abs_path_fuel, decompress_abs_path, e1, e2]
    | subst a sid =>
      simp only [decompress_abs_path_fuel, decompress_abs_path]
  · intro s t hsz
    cases t with
    | basicType a b => simp only [decompress_type_fuel, decompress_type]
    | ref a inner =>
      have h1 : sizeOf inner ≤ f := by simp at hsz; omega
      have e1 : ∀ s0, decompress_type_fuel f s0 inner = decompress_type s0 inner :=
        fun s0 => (ih f (Nat.lt_succ_self f)).2.2.1 s0 inner h1
      simp only [decompress_type_fuel, decompress_type, e1]
    | refMut a inner =>
      have h1 : sizeOf inner ≤ f := by simp at hsz; omega
      have e1 : ∀ s0, decompress_type_fuel f s0 inner = decompress_type s0 inner :=
        fun s0 => (ih f (Nat.lt_succ_self f)).2.2.1 s0 inner h1
      simp only [decompress_type_fuel, decompress_type, e1]
    | rawPtrConst a inner =>
      have h1 : sizeOf inner ≤ f := by simp at hsz; omega
      have e1 : ∀ s0, decompress_type_fuel f s0 inner = decompress_type s0 inner :=
        fun s0 => (ih f (Nat.lt_succ_self f)).2.2.1 s0 inner h1
      simp only [decompress_type_fuel, decompress_type, e1]
    | rawPtrMut a inner =>
      have h1 : sizeOf inner ≤ f := by simp at hsz; omega
      have e1 : ∀ s0, decompress_type_fuel f s0 inner = decompress_type s0 inner :=
        fun s0 => (ih f (Nat.lt_succ_self f)).2.2.1 s0 inner h1
      simp only [decompress_type_fuel, decompress_type, e1]
    | array a osz inner =>
      have h1 : sizeOf inner ≤ f := by simp at hsz; omega
      have e1 : ∀ s0, decompress_type_fuel f s0 inner = decompress_type s0 inner :=
        fun s0 => (ih f (Nat.lt_succ_self f)).2.2.1 s0 inner h1
      simp only [decompress_type_fuel, decompress_type, e1]
    | tuple a cs =>
      have h1 : sizeOf cs ≤ f := by simp at hsz; omega
      have e1 : ∀ s0, decompress_generic_parameter_list_fuel f s0 cs =
          decompress_generic_parameter_list s0 cs :=
        fun s0 => (ih f (Nat.lt_succ_self f)).2.2.2.1 s0 cs h1
      simp only [decompress_type_fuel, decompress_type, e1]
    | named a p =>
      have h1 : sizeOf p ≤ f := by simp at hsz; omega
      have e1 : ∀ s0, decompress_abs_path_fuel f s0 p = decompress_abs_path s0 p :=
        fun s0 => (ih f (Nat.lt_succ_self f)).2.1 s0 p h1
      simp only [decompress_type_fuel, decompress_type, e1]
    | fn a iu abi rt ps =>
      have h1 : sizeOf ps ≤ f := by simp at hsz; omega
      have h2 : sizeOf rt ≤ f := by simp at hsz; omega
      have e1 : ∀ s0, decompress_generic_parameter_list_fuel f s0 ps =
          decompress_generic_parameter_list s0 ps :=
        fun s0 => (ih f (Nat.lt_succ_self f)).2.2.2.1 s0 ps h1
      have e2 : ∀ s0, decompress_opt_type_fuel f s0 rt = decompress_opt_type s0 rt :=
        fun s0 => (ih f (Nat.lt_succ_self f)).2.2.2.2.2 s0 rt h2
      simp only [decompress_type_fuel, decompress_type, e1, e2]
    | genericParam a i => simp only [decompress_type_fuel, decompress_type]
    | subst a sid => simp only [decompress_type_fuel, decompress_type]
  · intro s ts hsz
    cases ts with
    | nil => simp only [decompress_generic_parameter_list_fuel,
        decompress_generic_parameter_list]
    | cons t rest =>
      have h1 : sizeOf t ≤ f := by simp at hsz; omega
      have h2 : sizeOf rest ≤ f := by simp at hsz; omega
      have e1 : ∀ s0, decompress_type_fuel f s0 t = decompress_type s0 t :=
        fun s0 => (ih f (Nat.lt_succ_self f)).2.2.1 s0 t h1
      have e2 : ∀ s0, decompress_generic_parameter_list_fuel f s0 rest =
          decompress_generic_parameter_list s0 rest :=
        fun s0 => (ih f (Nat.lt_succ_self f)).2.2.2.1 s0 rest h2
      simp only [decompress_generic_parameter_list_fuel,
        decompress_generic_parameter_list, e1, e2]
  · intro s op hsz
    cases op with
    | none => simp only [decompress_opt_abs_path_fuel, decompress_opt_abs_path]
    | some p =>
      have h1 : sizeOf p ≤ f := by simp at hsz; omega
      have e1 : ∀ s0, decompress_abs_path_fuel f s0 p = decompress_abs_path s0 p :=
        fun s0 => (ih f (Nat.lt_succ_self f)).2.1 s0 p h1
      simp only [decompress_opt_abs_path_fuel, decompress_opt_abs_path, e1]
  · intro s ot hsz
    cases ot with
    | none => simp only [decompress_opt_type_fuel, decompress_opt_type]
    | some t =>
      have h1 : sizeOf t ≤ f := by simp at hsz; omega
      have e1 : ∀ s0, decompress_type_fuel f s0 t = decompress_type s0 t :=
        fun s0 => (ih f (Nat.lt_succ_self f)).2.2.1 s0 t h1
      simp only [decompress_opt_type_fuel, decompress_opt_type, e1]

theorem TablesOK_empty (a0 : Nat) : TablesOK (DState.mk [] [] [] 0 a0) := by
  refine ⟨?_, ?_, ?_⟩ <;> (intro kv h; simp at h)

theorem KeysBelow_empty (a0 : Nat) : KeysBelow (DState.mk [] [] [] 0 a0) := by
  refine ⟨?_, ?_, ?_⟩ <;> (intro kv h; simp at h)

theorem decompress_symbol_substFree {s : DState} {sym out : Symbol} {s' : DState}
    (hT : TablesOK s) (hd : decompress_symbol s sym = some (out, s')) :
    TablesOK s' ∧ symbolSubstFree out = true := by
  simp only [decompress_symbol] at hd
  cases hrec1 : decompress_abs_path s sym.name with
  | none => simp [hrec1] at hd
  | some res1 =>
    obtain ⟨dn, s1⟩ := res1
    obtain ⟨hT1, hdn⟩ := (substFree_master (sizeOf sym.name)).2.1 s sym.name dn s1
      (Nat.le_refl _) hT hrec1
    cases hic : sym.instantiating_crate with
    | none =>
      simp only [hrec1, hic] at hd
      obtain ⟨rfl, rfl⟩ := by
        simpa only [Option.some.injEq, Prod.mk.injEq] using hd
      exact ⟨hT1, by simp [symbolSubstFree, ppOptSubstFree, hdn]⟩
    | some ic =>
      simp only [hrec1, hic] at hd
      cases hrec2 : decompress_path_prefix s1 ic with
      | none => simp [hrec2] at hd
      | some res2 =>
        obtain ⟨dic, s2⟩ := res2
        obtain ⟨hT2, hdic⟩ := (substFree_master (sizeOf ic)).1 s1 ic dic s2
          (Nat.le_refl _) hT1 hrec2
        simp only [hrec2] at hd
        obtain ⟨rfl, rfl⟩ := by
          simpa only [Option.some.injEq, Prod.mk.injEq] using hd
        exact ⟨hT2, by simp [symbolSubstFree, ppOptSubstFree, hdn, hdic]⟩

theorem decompress_symbol_mono {s : DState} {sym out : Symbol} {s' : DState}
    (hd : decompress_symbol s sym = some (out, s')) :
    s.subst_counter ≤ s'.subst_counter ∧
      (KeysBelow s → KeysBelow s' ∧ Preserves s s') := by
  simp only [decompress_symbol] at hd
  cases hrec1 : decompress_abs_path s sym.name with
  | none => simp [hrec1] at hd
  | some res1 =>
    obtain ⟨dn, s1⟩ := res1
    have st1 := (mono_master (sizeOf sym.name)).2.1 s sym.name dn s1
      (Nat.le_refl _) hrec1
    cases hic : sym.instantiating_crate with
    | none =>
      simp only [hrec1, hic] at hd
      obtain ⟨rfl, rfl⟩ := by
        simpa only [Option.some.injEq, Prod.mk.injEq] using hd
      exact st1
    | some ic =>
      simp only [hrec1, hic] at hd
      cases hrec2 : decompress_path_prefix s1 ic with
      | none => simp [hrec2] at hd
      | some res2 =>
        obtain ⟨dic, s2⟩ := res2
        have st2 := (mono_master (sizeOf ic)).1 s1 ic dic s2 (Nat.le_refl _) hrec2
        simp only [hrec2] at hd
        obtain ⟨rfl, rfl⟩ := by
          simpa only [Option.some.injEq, Prod.mk.injEq] using hd
        exact step_trans st1 st2

/-- C1: for every valid compressed `Symbol` — one satisfying the
precondition that each `Subst(id)` reached during expansion is already
present in an applicable table, i.e. one on which `decompress_ext` does
not hit the fatal branch — the `Symbol` returned by `decompress_ext`
contains no `Subst` variant anywhere in its tree, in any of the
`PathPrefix`, `AbsolutePath` or `Type` positions. -/
theorem claim_C1 (sym : Symbol) (a0 : Nat) (out : Symbol) (s' : DState)
    (h : decompress_ext sym a0 = some (out, s')) :
    symbolSubstFree out = true := by
  simp only [decompress_ext] at h
  exact (decompress_symbol_substFree (TablesOK_empty a0) h).2

theorem claim_C1_witness :
    symbolSubstFree
      (Symbol.mk (AbsolutePath.path 0 (PathPrefix.crateId 1 2) []) none) = true :=
  claim_C1 (Symbol.mk (AbsolutePath.path 0 (PathPrefix.crateId 1 2) []) none) 5
    (Symbol.mk (AbsolutePath.path 0 (PathPrefix.crateId 1 2) []) none)
    (DState.mk [(0, PathPrefix.crateId 1 2)] [] [] 1 5)
    (by simp [decompress_ext, decompress_symbol, decompress_abs_path,
      decompress_path_prefix, decompress_generic_parameter_list,
      alloc_subst_path_prefixes, arcNew, lookupTable,
      ppBeq, tyListBeq])

/-- C10: every expansion step preserves the invariant that each node
stored in any of the three substitution tables is itself fully expanded
(no `Subst` variant at any depth), and a lookup in a table satisfying the
invariant returns a `Subst`-free node without further work. -/
theorem claim_C10 :
    (∀ s p r s', TablesOK s → decompress_path_prefix s p = some (r, s') →
      TablesOK s') ∧
    (∀ s ap r s', TablesOK s → decompress_abs_path s ap = some (r, s') →
      TablesOK s') ∧
    (∀ s t r s', TablesOK s → decompress_type s t = some (r, s') →
      TablesOK s') ∧
    (∀ s k v, TablesOK s → lookupTable s.path_prefixes k = some v →
      ppSubstFree v = true) ∧
    (∀ s k v, TablesOK s → lookupTable s.abs_paths k = some v →
      apSubstFree v = true) ∧
    (∀ s k v, TablesOK s → lookupTable s.types k = some v →
      tySubstFree v = true) := by
  refine ⟨?_, ?_, ?_, ?_, ?_, ?_⟩
  · exact fun s p r s' hT hd =>
      ((substFree_master (sizeOf p)).1 s p r s' (Nat.le_refl _) hT hd).1
  · exact fun s ap r s' hT hd =>
      ((substFree_master (sizeOf ap)).2.1 s ap r s' (Nat.le_refl _) hT hd).1
  · exact fun s t r s' hT hd =>
      ((substFree_master (sizeOf t)).2.2.1 s t r s' (Nat.le_refl _) hT hd).1
  · exact fun s k v hT h => TablesOK_lookup_pp hT h
  · exact fun s k v hT h => TablesOK_lookup_ap hT h
  · exact fun s k v hT h => TablesOK_lookup_ty hT h

theorem claim_C10_witness :
    TablesOK (DState.mk [(0, PathPrefix.crateId 1 2)] [] [] 1 5) :=
  claim_C10.1 (DState.mk [] [] [] 0 5) (PathPrefix.crateId 1 2)
    (PathPrefix.crateId 1 2) (DState.mk [(0, PathPrefix.crateId 1 2)] [] [] 1 5)
    (TablesOK_empty 5)
    (by simp [ decompress_path_prefix, alloc_subst_path_prefixes])

/-- C8: each allocation takes the current counter value as the id,
advances the counter by one, and grows exactly one table; across one run
the counter is monotone, all table keys stay below the counter (so ids
are never reused), and no table binding is ever removed or
overwritten. -/
theorem claim_C8 :
    (∀ node s, alloc_subst_path_prefixes node s = DState.mk
      ((s.subst_counter, node) :: s.path_prefixes) s.abs_paths s.types
      (s.subst_counter + 1) s.next_addr) ∧
    (∀ node s, alloc_subst_abs_paths node s = DState.mk s.path_prefixes
      ((s.subst_counter, node) :: s.abs_paths) s.types (s.subst_counter + 1)
      s.next_addr) ∧
    (∀ node s, alloc_subst_types node s = DState.mk s.path_prefixes s.abs_paths
      ((s.subst_counter, node) :: s.types) (s.subst_counter + 1)
      s.next_addr) ∧
    (∀ s p r s', decompress_path_prefix s p = some (r, s') →
      s.subst_counter ≤ s'.subst_counter ∧
        (KeysBelow s → KeysBelow s' ∧ Preserves s s')) ∧
    (∀ s ap r s', decompress_abs_path s ap = some (r, s') →
      s.subst_counter ≤ s'.subst_counter ∧
        (KeysBelow s → KeysBelow s' ∧ Preserves s s')) ∧
    (∀ s t r s', decompress_type s t = some (r, s') →
      s.subst_counter ≤ s'.subst_counter ∧
        (KeysBelow s → KeysBelow s' ∧ Preserves s s')) ∧
    (∀ sym a0 out s', decompress_ext sym a0 = some (out, s') →
      KeysBelow s') := by
  refine ⟨fun node s => rfl, fun node s => rfl, fun node s => rfl,
    ?_, ?_, ?_, ?_⟩
  · exact fun s p r s' hd =>
      (mono_master (sizeOf p)).1 s p r s' (Nat.le_refl _) hd
  · exact fun s ap r s' hd =>
      (mono_master (sizeOf ap)).2.1 s ap r s' (Nat.le_refl _) hd
  · exact fun s t r s' hd =>
      (mono_master (sizeOf t)).2.2.1 s t r s' (Nat.le_refl _) hd
  · intro sym a0 out s' hd
    simp only [decompress_ext] at hd
    exact ((decompress_symbol_mono hd).2 (KeysBelow_empty a0)).1

theorem claim_C8_witness :
    (DState.mk [] [] [] 0 5).subst_counter ≤
        (DState.mk [(0, PathPrefix.crateId 1 2)] [] [] 1 5).subst_counter ∧
      KeysBelow (DState.mk [(0, PathPrefix.crateId 1 2)] [] [] 1 5) := by
  have h := claim_C8.2.2.2.1 (DState.mk [] [] [] 0 5) (PathPrefix.crateId 1 2)
    (PathPrefix.crateId 1 2) (DState.mk [(0, PathPrefix.crateId 1 2)] [] [] 1 5)
    (by simp [ decompress_path_prefix, alloc_subst_path_prefixes])
  exact ⟨h.1, (h.2 (KeysBelow_empty 5)).1⟩

/-- C9: the decompression computation terminates and its recursion depth
is bounded by the finite size of the input tree: with any fuel at least
the size of the input, the fuel-indexed engine (which consumes one unit
of fuel per recursive call and gives up at zero) agrees with the
recursive one, on each expansion function and on a whole
`decompress_ext` run. -/
theorem claim_C9 :
    (∀ fuel s p, sizeOf p ≤ fuel →
      decompress_path_prefix_fuel fuel s p = decompress_path_prefix s p) ∧
    (∀ fuel s ap, sizeOf ap ≤ fuel →
      decompress_abs_path_fuel fuel s ap = decompress_abs_path s ap) ∧
    (∀ fuel s t, sizeOf t ≤ fuel →
      decompress_type_fuel fuel s t = decompress_type s t) ∧
    (∀ fuel sym a0, sizeOf sym.name ≤ fuel →
      sizeOf sym.instantiating_crate ≤ fuel →
      decompress_ext_fuel fuel sym a0 = decompress_ext sym a0) := by
  refine ⟨?_, ?_, ?_, ?_⟩
  · exact fun fuel s p h => (fuel_adequacy_master fuel).1 s p h
  · exact fun fuel s ap h => (fuel_adequacy_master fuel).2.1 s ap h
  · exact fun fuel s t h => (fuel_adequacy_master fuel).2.2.1 s t h
  · intro fuel sym a0 h1 h2
    simp only [decompress_ext_fuel, decompress_ext, decompress_symbol_fuel,
      decompress_symbol]
    have e1 : ∀ s0, decompress_abs_path_fuel fuel s0 sym.name =
        decompress_abs_path s0 sym.name :=
      fun s0 => (fuel_adequacy_master fuel).2.1 s0 sym.name h1
    cases hic : sym.instantiating_crate with
    | none => simp only [e1, hic]
    | some ic =>
      have hic2 : sizeOf ic ≤ fuel := by rw [hic] at h2; simp at h2; omega
      have e2 : ∀ s0, decompress_path_prefix_fuel fuel s0 ic =
          decompress_path_prefix s0 ic :=
        fun s0 => (fuel_adequacy_master fuel).1 s0 ic hic2
      simp only [e1, hic, e2]

theorem claim_C9_witness :
    decompress_ext_fuel 50
        (Symbol.mk (AbsolutePath.path 0 (PathPrefix.crateId 1 2) []) none) 5 =
      decompress_ext
        (Symbol.mk (AbsolutePath.path 0 (PathPrefix.crateId 1 2) []) none) 5 :=
  claim_C9.2.2.2 50
    (Symbol.mk (AbsolutePath.path 0 (PathPrefix.crateId 1 2) []) none) 5
    (by simp) (by simp)

/-- C2: when type expansion meets `Type::Subst(id)`, it resolves the id
by checking the type table first; failing that, the absolute-path table,
wrapping the hit in `Named`; failing that, the path-prefix table,
wrapping the hit in a zero-argument `Named` path.  First match wins, and
in all three outcomes no table entry is allocated and the counter does
not move. -/
theorem claim_C2 (s : DState) (a sid : Nat) :
    (∀ t, lookupTable s.types sid = some t →
      decompress_type s (Ty.subst a sid) = some (t, s)) ∧
    (∀ p, lookupTable s.types sid = none →
      lookupTable s.abs_paths sid = some p →
      decompress_type s (Ty.subst a sid) =
        some (Ty.named s.next_addr p,
          DState.mk s.path_prefixes s.abs_paths s.types s.subst_counter
            (s.next_addr + 1))) ∧
    (∀ pre, lookupTable s.types sid = none →
      lookupTable s.abs_paths sid = none →
      lookupTable s.path_prefixes sid = some pre →
      decompress_type s (Ty.subst a sid) =
        some (Ty.named (s.next_addr + 1) (AbsolutePath.path s.next_addr pre []),
          DState.mk s.path_prefixes s.abs_paths s.types s.subst_counter
            (s.next_addr + 1 + 1))) ∧
    (∀ r s', decompress_type s (Ty.subst a sid) = some (r, s') →
      s'.path_prefixes = s.path_prefixes ∧ s'.abs_paths = s.abs_paths ∧
        s'.types = s.types ∧ s'.subst_counter = s.subst_counter) := by
  refine ⟨?_, ?_, ?_, ?_⟩
  · intro t h
    simp only [decompress_type, h]
  · intro p h0 h1
    simp only [decompress_type, arcNew, h0, h1]
  · intro pre h0 h1 h2
    simp only [decompress_type, arcNew, h0, h1, h2]
  · intro r s' hd
    simp only [decompress_type, arcNew] at hd
    cases hlk1 : lookupTable s.types sid with
    | some hit =>
      simp only [hlk1] at hd
      obtain ⟨rfl, rfl⟩ := by
        simpa only [Option.some.injEq, Prod.mk.injEq] using hd
      exact ⟨rfl, rfl, rfl, rfl⟩
    | none =>
      cases hlk2 : lookupTable s.abs_paths sid with
      | some hit =>
        simp only [hlk1, hlk2] at hd
        obtain ⟨rfl, rfl⟩ := by
          simpa only [Option.some.injEq, Prod.mk.injEq] using hd
        exact ⟨rfl, rfl, rfl, rfl⟩
      | none =>
        cases hlk3 : lookupTable s.path_prefixes sid with
        | none => simp [hlk1, hlk2, hlk3] at hd
        | some pre =>
          simp only [hlk1, hlk2, hlk3] at hd
          obtain ⟨rfl, rfl⟩ := by
            simpa only [Option.some.injEq, Prod.mk.injEq] using hd
          exact ⟨rfl, rfl, rfl, rfl⟩

theorem claim_C2_witness :
    decompress_type
        (DState.mk [(7, PathPrefix.crateId 1 2)] [] [(0, Ty.basicType 4 9)] 9 100)
        (Ty.subst 50 0) =
      some (Ty.basicType 4 9,
        DState.mk [(7, PathPrefix.crateId 1 2)] [] [(0, Ty.basicType 4 9)] 9 100) ∧
    decompress_type
        (DState.mk [(7, PathPrefix.crateId 1 2)] [] [(0, Ty.basicType 4 9)] 9 100)
        (Ty.subst 50 7) =
      some (Ty.named 101 (AbsolutePath.path 100 (PathPrefix.crateId 1 2) []),
        DState.mk [(7, PathPrefix.crateId 1 2)] [] [(0, Ty.basicType 4 9)] 9 102) :=
  ⟨(claim_C2 (DState.mk [(7, PathPrefix.crateId 1 2)] []
        [(0, Ty.basicType 4 9)] 9 100) 50 0).1
      (Ty.basicType 4 9) (by simp [lookupTable]),
   (claim_C2 (DState.mk [(7, PathPrefix.crateId 1 2)] []
        [(0, Ty.basicType 4 9)] 9 100) 50 7).2.2.1
      (PathPrefix.crateId 1 2) (by simp [lookupTable]) (by simp [lookupTable])
      (by simp [lookupTable])⟩

/-- C3: expanding `AbsolutePath::Path` allocates an absolute-path-table
entry (holding the returned node, under the next counter value) iff the
generic-argument list is non-empty; with an empty argument list neither
the table nor the counter moves beyond what the children did.  An
`AbsolutePath::Subst` found only in the path-prefix table resolves to a
synthesized `Path` with that prefix and an empty argument list, without
touching any table. -/
theorem claim_C3 :
    (∀ s a name args new' s1 dargs s2 r s',
      decompress_path_prefix s name = some (new', s1) →
      decompress_generic_parameter_list s1 args = some (dargs, s2) →
      decompress_abs_path s (AbsolutePath.path a name args) = some (r, s') →
      (args = [] → s'.abs_paths = s2.abs_paths ∧
        s'.subst_counter = s2.subst_counter) ∧
      (args ≠ [] → s'.abs_paths = (s2.subst_counter, r) :: s2.abs_paths ∧
        s'.subst_counter = s2.subst_counter + 1)) ∧
    (∀ s a sid pre, lookupTable s.abs_paths sid = none →
      lookupTable s.path_prefixes sid = some pre →
      decompress_abs_path s (AbsolutePath.subst a sid) =
        some (AbsolutePath.path s.next_addr pre [],
          DState.mk s.path_prefixes s.abs_paths s.types s.subst_counter
            (s.next_addr + 1))) := by
  constructor
  · intro s a name args new' s1 dargs s2 r s' h1 h2 hd
    simp only [decompress_abs_path, arcNew, h1, h2] at hd
    by_cases hc : (ppBeq name new' && tyListBeq dargs args) = true
    · by_cases hemp : args.isEmpty = true
      · simp only [hc, if_true, hemp] at hd
        obtain ⟨rfl, rfl⟩ := by
          simpa only [Option.some.injEq, Prod.mk.injEq] using hd
        exact ⟨fun _ => ⟨rfl, rfl⟩,
          fun hne => absurd (List.isEmpty_iff.mp hemp) hne⟩
      · simp only [hc, if_true, hemp, if_false, Bool.false_eq_true] at hd
        obtain ⟨rfl, rfl⟩ := by
          simpa only [Option.some.injEq, Prod.mk.injEq] using hd
        exact ⟨fun he => by subst he; simp at hemp, fun _ => ⟨rfl, rfl⟩⟩
    · by_cases hemp : args.isEmpty = true
      · simp only [hc, if_false, Bool.false_eq_true, hemp, if_true] at hd
        obtain ⟨rfl, rfl⟩ := by
          simpa only [Option.some.injEq, Prod.mk.injEq] using hd
        exact ⟨fun _ => ⟨rfl, rfl⟩,
          fun hne => absurd (List.isEmpty_iff.mp hemp) hne⟩
      · simp only [hc, hemp, if_false, Bool.false_eq_true] at hd
        obtain ⟨rfl, rfl⟩ := by
          simpa only [Option.some.injEq, Prod.mk.injEq] using hd
        exact ⟨fun he => by subst he; simp at hemp, fun _ => ⟨rfl, rfl⟩⟩
  · intro s a sid pre h1 h2
    simp only [decompress_abs_path, arcNew, h1, h2]

theorem claim_C3_witness :
    decompress_abs_path (DState.mk [(3, PathPrefix.crateId 1 2)] [] [] 4 10)
        (AbsolutePath.subst 9 3) =
      some (AbsolutePath.path 10 (PathPrefix.crateId 1 2) [],
        DState.mk [(3, PathPrefix.crateId 1 2)] [] [] 4 11) :=
  claim_C3.2 (DState.mk [(3, PathPrefix.crateId 1 2)] [] [] 4 10) 9 3
    (PathPrefix.crateId 1 2) (by simp [lookupTable]) (by simp [lookupTable])

/-- C5: expanding `Type::BasicType` returns the node with the state
untouched and expanding `Type::Named` adds nothing to the type table
beyond what its children did, while expanding `GenericParam`, `Ref`,
`RefMut`, `RawPtrConst`, `RawPtrMut`, `Array`, `Tuple` or `Fn` creates
exactly one new type-table entry for that occurrence (holding the
returned node, under the next counter value). -/
theorem claim_C5 :
    (∀ s a b, decompress_type s (Ty.basicType a b) =
      some (Ty.basicType a b, s)) ∧
    (∀ s a p dp s1 r s', decompress_abs_path s p = some (dp, s1) →
      decompress_type s (Ty.named a p) = some (r, s') →
      s'.types = s1.types ∧ s'.subst_counter = s1.subst_counter) ∧
    (∀ s a i, decompress_type s (Ty.genericParam a i) =
      some (Ty.genericParam a i,
        alloc_subst_types (Ty.genericParam a i) s)) ∧
    (∀ s a inner di s1 r s', decompress_type s inner = some (di, s1) →
      decompress_type s (Ty.ref a inner) = some (r, s') →
      s'.types = (s1.subst_counter, r) :: s1.types ∧
        s'.subst_counter = s1.subst_counter + 1) ∧
    (∀ s a inner di s1 r s', decompress_type s inner = some (di, s1) →
      decompress_type s (Ty.refMut a inner) = some (r, s') →
      s'.types = (s1.subst_counter, r) :: s1.types ∧
        s'.subst_counter = s1.subst_counter + 1) ∧
    (∀ s a inner di s1 r s', decompress_type s inner = some (di, s1) →
      decompress_type s (Ty.rawPtrConst a inner) = some (r, s') →
      s'.types = (s1.subst_counter, r) :: s1.types ∧
        s'.subst_counter = s1.subst_counter + 1) ∧
    (∀ s a inner di s1 r s', decompress_type s inner = some (di, s1) →
      decompress_type s (Ty.rawPtrMut a inner) = some (r, s') →
      s'.types = (s1.subst_counter, r) :: s1.types ∧
        s'.subst_counter = s1.subst_counter + 1) ∧
    (∀ s a osz inner di s1 r s', decompress_type s inner = some (di, s1) →
      decompress_type s (Ty.array a osz inner) = some (r, s') →
      s'.types = (s1.subst_counter, r) :: s1.types ∧
        s'.subst_counter = s1.subst_counter + 1) ∧
    (∀ s a cs dcs s1 r s',
      decompress_generic_parameter_list s cs = some (dcs, s1) →
      decompress_type s (Ty.tuple a cs) = some (r, s') →
      s'.types = (s1.subst_counter, r) :: s1.types ∧
        s'.subst_counter = s1.subst_counter + 1) ∧
    (∀ s a iu abi rt ps dps s1 drt s2 r s',
      decompress_generic_parameter_list s ps = some (dps, s1) →
      decompress_opt_type s1 rt = some (drt, s2) →
      decompress_type s (Ty.fn a iu abi rt ps) = some (r, s') →
      s'.types = (s2.subst_counter, r) :: s2.types ∧
        s'.subst_counter = s2.subst_counter + 1) := by
  refine ⟨?_, ?_, ?_, ?_, ?_, ?_, ?_, ?_, ?_, ?_⟩
  · intro s a b
    simp only [decompress_type]
  · intro s a p dp s1 r s' h1 hd
    simp only [decompress_type, arcNew, h1] at hd
    by_cases hbeq : apBeq p dp = true
    · simp only [hbeq, if_true] at hd
      obtain ⟨rfl, rfl⟩ := by
        simpa only [Option.some.injEq, Prod.mk.injEq] using hd
      exact ⟨rfl, rfl⟩
    · simp only [hbeq, if_false, Bool.false_eq_true] at hd
      obtain ⟨rfl, rfl⟩ := by
        simpa only [Option.some.injEq, Prod.mk.injEq] using hd
      exact ⟨rfl, rfl⟩
  · intro s a i
    simp only [decompress_type]
  · intro s a inner di s1 r s' h1 hd
    simp only [decompress_type, arcNew, h1] at hd
    by_cases hbeq : tyBeq inner di = true
    · simp only [hbeq, if_true] at hd
      obtain ⟨rfl, rfl⟩ := by
        simpa only [Option.some.injEq, Prod.mk.injEq] using hd
      exact ⟨rfl, rfl⟩
    · simp only [hbeq, if_false, Bool.false_eq_true] at hd
      obtain ⟨rfl, rfl⟩ := by
        simpa only [Option.some.injEq, Prod.mk.injEq] using hd
      exact ⟨rfl, rfl⟩
  · intro s a inner di s1 r s' h1 hd
    simp only [decompress_type, arcNew, h1] at hd
    by_cases hbeq : tyBeq inner di = true
    · simp only [hbeq, if_true] at hd
      obtain ⟨rfl, rfl⟩ := by
        simpa only [Option.some.injEq, Prod.mk.injEq] using hd
      exact ⟨rfl, rfl⟩
    · simp only [hbeq, if_false, Bool.false_eq_true] at hd
      obtain ⟨rfl, rfl⟩ := by
        simpa only [Option.some.injEq, Prod.mk.injEq] using hd
      exact ⟨rfl, rfl⟩
  · intro s a inner di s1 r s' h1 hd
    simp only [decompress_type, arcNew, h1] at hd
    by_cases hbeq : tyBeq inner di = true
    · simp only [hbeq, if_true] at hd
      obtain ⟨rfl, rfl⟩ := by
        simpa only [Option.some.injEq, Prod.mk.injEq] using hd
      exact ⟨rfl, rfl⟩
    · simp only [hbeq, if_false, Bool.false_eq_true] at hd
      obtain ⟨rfl, rfl⟩ := by
        simpa only [Option.some.injEq, Prod.mk.injEq] using hd
      exact ⟨rfl, rfl⟩
  · intro s a inner di s1 r s' h1 hd
    simp only [decompress_type, arcNew, h1] at hd
    by_cases hbeq : tyBeq inner di = true
    · simp only [hbeq, if_true] at hd
      obtain ⟨rfl, rfl⟩ := by
        simpa only [Option.some.injEq, Prod.mk.injEq] using hd
      exact ⟨rfl, rfl⟩
    · simp only [hbeq, if_false, Bool.false_eq_true] at hd
      obtain ⟨rfl, rfl⟩ := by
        simpa only [Option.some.injEq, Prod.mk.injEq] using hd
      exact ⟨rfl, rfl⟩
  · intro s a osz inner di s1 r s' h1 hd
    simp only [decompress_type, arcNew, h1] at hd
    by_cases hbeq : tyBeq inner di = true
    · simp only [hbeq, if_true] at hd
      obtain ⟨rfl, rfl⟩ := by
        simpa only [Option.some.injEq, Prod.mk.injEq] using hd
      exact ⟨rfl, rfl⟩
    · simp only [hbeq, if_false, Bool.false_eq_true] at hd
      obtain ⟨rfl, rfl⟩ := by
        simpa only [Option.some.injEq, Prod.mk.injEq] using hd
      exact ⟨rfl, rfl⟩
  · intro s a cs dcs s1 r s' h1 hd
    simp only [decompress_type, arcNew, h1] at hd
    by_cases hbeq : tyListBeq dcs cs = true
    · simp only [hbeq, if_true] at hd
      obtain ⟨rfl, rfl⟩ := by
        simpa only [Option.some.injEq, Prod.mk.injEq] using hd
      exact ⟨rfl, rfl⟩
    · simp only [hbeq, if_false, Bool.false_eq_true] at hd
      obtain ⟨rfl, rfl⟩ := by
        simpa only [Option.some.injEq, Prod.mk.injEq] using hd
      exact ⟨rfl, rfl⟩
  · intro s a iu abi rt ps dps s1 drt s2 r s' h1 h2 hd
    simp only [decompress_type, arcNew, h1, h2] at hd
    by_cases hc : (tyOptBeq rt drt && tyListBeq dps ps) = true
    · simp only [hc, if_true] at hd
      obtain ⟨rfl, rfl⟩ := by
        simpa only [Option.some.injEq, Prod.mk.injEq] using hd
      exact ⟨rfl, rfl⟩
    · simp only [hc, if_false, Bool.false_eq_true] at hd
      obtain ⟨rfl, rfl⟩ := by
        simpa only [Option.some.injEq, Prod.mk.injEq] using hd
      exact ⟨rfl, rfl⟩

theorem claim_C5_witness :
    decompress_type (DState.mk [] [] [] 0 20) (Ty.basicType 1 2) =
      some (Ty.basicType 1 2, DState.mk [] [] [] 0 20) ∧
    (DState.mk [] [] [(0, Ty.ref 3 (Ty.basicType 1 2))] 1 20).types =
      ((DState.mk [] [] [] 0 20).subst_counter, Ty.ref 3 (Ty.basicType 1 2)) ::
        (DState.mk [] [] [] 0 20).types ∧
    (DState.mk [] [] [(0, Ty.ref 3 (Ty.basicType 1 2))] 1 20).subst_counter =
      (DState.mk [] [] [] 0 20).subst_counter + 1 := by
  refine ⟨claim_C5.1 (DState.mk [] [] [] 0 20) 1 2, ?_⟩
  exact claim_C5.2.2.2.1 (DState.mk [] [] [] 0 20) 3 (Ty.basicType 1 2)
    (Ty.basicType 1 2) (DState.mk [] [] [] 0 20)
    (Ty.ref 3 (Ty.basicType 1 2))
    (DState.mk [] [] [(0, Ty.ref 3 (Ty.basicType 1 2))] 1 20)
    (by simp [decompress_type])
    (by simp [decompress_type, tyBeq, alloc_subst_types])

/-- C6: a `Subst(id)` met in a context where none of the applicable
tables (per the variant-specific precedence) contains the id makes the
engine terminate through the fatal branch (`none`), never returning a
value; in particular a whole run on a symbol whose root references an id
never allocated returns `none`. -/
theorem claim_C6 :
    (∀ s a sid, lookupTable s.path_prefixes sid = none →
      decompress_path_prefix s (PathPrefix.subst a sid) = none) ∧
    (∀ s a sid, lookupTable s.abs_paths sid = none →
      lookupTable s.path_prefixes sid = none →
      decompress_abs_path s (AbsolutePath.subst a sid) = none) ∧
    (∀ s a sid, lookupTable s.types sid = none →
      lookupTable s.abs_paths sid = none →
      lookupTable s.path_prefixes sid = none →
      decompress_type s (Ty.subst a sid) = none) ∧
    (∀ a sid a0, decompress_ext
      (Symbol.mk (AbsolutePath.subst a sid) none) a0 = none) := by
  refine ⟨?_, ?_, ?_, ?_⟩
  · intro s a sid h
    simp only [ decompress_path_prefix, h]
  · intro s a sid h1 h2
    simp only [decompress_abs_path, h1, h2]
  · intro s a sid h1 h2 h3
    simp only [decompress_type, h1, h2, h3]
  · intro a sid a0
    simp [decompress_ext, decompress_symbol, decompress_abs_path, lookupTable]

theorem claim_C6_witness :
    decompress_path_prefix (DState.mk [] [] [] 0 0) (PathPrefix.subst 1 5) =
      none :=
  claim_C6.1 (DState.mk [] [] [] 0 0) 1 5 (by simp [lookupTable])

/-- C4 fails as stated: `PathPrefix::TraitImpl` always constructs a
fresh node.  Here the children of a `TraitImpl` are left unchanged by
expansion (the self type expands to itself with the state untouched and
there is no implemented trait), yet the returned node is a freshly
allocated copy, not the same shared input node. -/
theorem claim_C4_counterexample :
    decompress_type (DState.mk [] [] [] 0 100) (Ty.basicType 7 3) =
      some (Ty.basicType 7 3, DState.mk [] [] [] 0 100) ∧
    decompress_path_prefix (DState.mk [] [] [] 0 100)
        (PathPrefix.traitImpl 5 (Ty.basicType 7 3) none 0) =
      some (PathPrefix.traitImpl 100 (Ty.basicType 7 3) none 0,
        DState.mk [(0, PathPrefix.traitImpl 100 (Ty.basicType 7 3) none 0)]
          [] [] 1 101) ∧
    PathPrefix.traitImpl 100 (Ty.basicType 7 3) none 0 ≠
      PathPrefix.traitImpl 5 (Ty.basicType 7 3) none 0 := by
  refine ⟨?_, ?_, ?_⟩
  · simp [decompress_type]
  · simp [ decompress_path_prefix, decompress_type, decompress_opt_abs_path,
      arcNew, alloc_subst_path_prefixes]
  · simp

/-- C4 amended: for every composite node other than
`PathPrefix::TraitImpl` — `PathPrefix::Node`, `AbsolutePath::Path` and
the composite `Type` variants — if expansion leaves all of the node's
children unchanged, the expansion returns the very same shared input
node; `PathPrefix::TraitImpl` instead always constructs a freshly
allocated node, even when its children are unchanged. -/
theorem claim_C4_amended :
    (∀ s a pre ident s1, decompress_path_prefix s pre = some (pre, s1) →
      decompress_path_prefix s (PathPrefix.node a pre ident) =
        some (PathPrefix.node a pre ident,
          alloc_subst_path_prefixes (PathPrefix.node a pre ident) s1)) ∧
    (∀ s a name args s1 s2, decompress_path_prefix s name = some (name, s1) →
      decompress_generic_parameter_list s1 args = some (args, s2) →
      decompress_abs_path s (AbsolutePath.path a name args) =
        some (AbsolutePath.path a name args,
          if args.isEmpty then s2
          else alloc_subst_abs_paths (AbsolutePath.path a name args) s2)) ∧
    (∀ s a inner s1, decompress_type s inner = some (inner, s1) →
      decompress_type s (Ty.ref a inner) =
        some (Ty.ref a inner, alloc_subst_types (Ty.ref a inner) s1)) ∧
    (∀ s a inner s1, decompress_type s inner = some (inner, s1) →
      decompress_type s (Ty.refMut a inner) =
        some (Ty.refMut a inner, alloc_subst_types (Ty.refMut a inner) s1)) ∧
    (∀ s a inner s1, decompress_type s inner = some (inner, s1) →
      decompress_type s (Ty.rawPtrConst a inner) =
        some (Ty.rawPtrConst a inner, alloc_subst_types (Ty.rawPtrConst a inner) s1)) ∧
    (∀ s a inner s1, decompress_type s inner = some (inner, s1) →
      decompress_type s (Ty.rawPtrMut a inner) =
        some (Ty.rawPtrMut a inner, alloc_subst_types (Ty.rawPtrMut a inner) s1)) ∧
    (∀ s a osz inner s1, decompress_type s inner = some (inner, s1) →
      decompress_type s (Ty.array a osz inner) =
        some (Ty.array a osz inner,
          alloc_subst_types (Ty.array a osz inner) s1)) ∧
    (∀ s a cs s1, decompress_generic_parameter_list s cs = some (cs, s1) →
      decompress_type s (Ty.tuple a cs) =
        some (Ty.tuple a cs, alloc_subst_types (Ty.tuple a cs) s1)) ∧
    (∀ s a p s1, decompress_abs_path s p = some (p, s1) →
      decompress_type s (Ty.named a p) = some (Ty.named a p, s1)) ∧
    (∀ s a iu abi rt ps s1 s2,
      decompress_generic_parameter_list s ps = some (ps, s1) →
      decompress_opt_type s1 rt = some (rt, s2) →
      decompress_type s (Ty.fn a iu abi rt ps) =
        some (Ty.fn a iu abi rt ps,
          alloc_subst_types (Ty.fn a iu abi rt ps) s2)) ∧
    (∀ s a st it dis dst s1 dit s2,
      decompress_type s st = some (dst, s1) →
      decompress_opt_abs_path s1 it = some (dit, s2) →
      decompress_path_prefix s (PathPrefix.traitImpl a st it dis) =
        some (PathPrefix.traitImpl s2.next_addr dst dit dis,
          alloc_subst_path_prefixes
            (PathPrefix.traitImpl s2.next_addr dst dit dis)
            (DState.mk s2.path_prefixes s2.abs_paths s2.types s2.subst_counter
              (s2.next_addr + 1)))) := by
  refine ⟨?_, ?_, ?_, ?_, ?_, ?_, ?_, ?_, ?_, ?_, ?_⟩
  · intro s a pre ident s1 h
    have hb : ppBeq pre pre = true := ppBeq_eq.mpr rfl
    simp only [ decompress_path_prefix, h, hb, if_true]
  · intro s a name args s1 s2 h1 h2
    have hb : (ppBeq name name && tyListBeq args args) = true := by
      simp [ppBeq_eq.mpr rfl, tyListBeq_eq.mpr rfl]
    simp only [decompress_abs_path, h1, h2, hb, if_true]
    by_cases hemp : args.isEmpty = true <;> simp [hemp]
  · intro s a inner s1 h
    have hb : tyBeq inner inner = true := tyBeq_eq.mpr rfl
    simp only [decompress_type, h, hb, if_true]
  · intro s a inner s1 h
    have hb : tyBeq inner inner = true := tyBeq_eq.mpr rfl
    simp only [decompress_type, h, hb, if_true]
  · intro s a inner s1 h
    have hb : tyBeq inner inner = true := tyBeq_eq.mpr rfl
    simp only [decompress_type, h, hb, if_true]
  · intro s a inner s1 h
    have hb : tyBeq inner inner = true := tyBeq_eq.mpr rfl
    simp only [decompress_type, h, hb, if_true]
  · intro s a osz inner s1 h
    have hb : tyBeq inner inner = true := tyBeq_eq.mpr rfl
    simp only [decompress_type, h, hb, if_true]
  · intro s a cs s1 h
    have hb : tyListBeq cs cs = true := tyListBeq_eq.mpr rfl
    simp only [decompress_type, h, hb, if_true]
  · intro s a p s1 h
    have hb : apBeq p p = true := apBeq_eq.mpr rfl
    simp only [decompress_type, h, hb, if_true]
  · intro s a iu abi rt ps s1 s2 h1 h2
    have hb : (tyOptBeq rt rt && tyListBeq ps ps) = true := by
      simp [tyOptBeq_eq.mpr rfl, tyListBeq_eq.mpr rfl]
    simp only [decompress_type, h1, h2, hb, if_true]
  · intro s a st it dis dst s1 dit s2 h1 h2
    simp only [ decompress_path_prefix, arcNew, h1, h2]

theorem claim_C4_amended_witness :
    decompress_path_prefix (DState.mk [] [] [] 0 9)
        (PathPrefix.node 3 (PathPrefix.crateId 1 2) 4) =
      some (PathPrefix.node 3 (PathPrefix.crateId 1 2) 4,
        alloc_subst_path_prefixes (PathPrefix.node 3 (PathPrefix.crateId 1 2) 4)
          (alloc_subst_path_prefixes (PathPrefix.crateId 1 2)
            (DState.mk [] [] [] 0 9))) :=
  claim_C4_amended.1 (DState.mk [] [] [] 0 9) 3 (PathPrefix.crateId 1 2) 4
    (alloc_subst_path_prefixes (PathPrefix.crateId 1 2) (DState.mk [] [] [] 0 9))
    (by simp [ decompress_path_prefix])

/-- C7: starting from a state whose type table maps substitution 0 to
`BasicType(i32)` (other tables empty, counter `c` past 0), expanding
`Path { name: Node { prefix: CrateId, ident: "foo" }, args: [Subst(0)] }`
yields `Path { name: Node { prefix: CrateId, ident: "foo" }, args: [i32] }`
with the prefix node shared with the input, and allocates exactly one
new absolute-path-table entry (id `c + 2`) and exactly two new
path-prefix-table entries (`c` for `CrateId`, `c + 1` for `Node`), with
no new type-table entry. -/
theorem claim_C7 (c a0 aP aN aC aS a32 dCrate identFoo b32 : Nat)
    (h : 0 < c) :
    decompress_abs_path
      (DState.mk [] [] [(0, Ty.basicType a32 b32)] c a0)
      (AbsolutePath.path aP
        (PathPrefix.node aN (PathPrefix.crateId aC dCrate) identFoo)
        [Ty.subst aS 0]) =
    some (AbsolutePath.path a0
        (PathPrefix.node aN (PathPrefix.crateId aC dCrate) identFoo)
        [Ty.basicType a32 b32],
      DState.mk
        [(c + 1, PathPrefix.node aN (PathPrefix.crateId aC dCrate) identFoo),
         (c, PathPrefix.crateId aC dCrate)]
        [(c + 2, AbsolutePath.path a0
          (PathPrefix.node aN (PathPrefix.crateId aC dCrate) identFoo)
          [Ty.basicType a32 b32])]
        [(0, Ty.basicType a32 b32)]
        (c + 3) (a0 + 1)) := by
  simp [decompress_abs_path, decompress_path_prefix, decompress_type,
    decompress_generic_parameter_list, lookupTable, ppBeq, apBeq, tyBeq,
    tyListBeq, alloc_subst_path_prefixes, alloc_subst_abs_paths,
    alloc_subst_types, arcNew]

theorem claim_C7_witness :
    0 < 1 ∧
    decompress_abs_path
      (DState.mk [] [] [(0, Ty.basicType 6 32)] 1 40)
      (AbsolutePath.path 10
        (PathPrefix.node 11 (PathPrefix.crateId 12 0) 77)
        [Ty.subst 13 0]) =
    some (AbsolutePath.path 40
        (PathPrefix.node 11 (PathPrefix.crateId 12 0) 77)
        [Ty.basicType 6 32],
      DState.mk
        [(2, PathPrefix.node 11 (PathPrefix.crateId 12 0) 77),
         (1, PathPrefix.crateId 12 0)]
        [(3, AbsolutePath.path 40
          (PathPrefix.node 11 (PathPrefix.crateId 12 0) 77)
          [Ty.basicType 6 32])]
        [(0, Ty.basicType 6 32)]
        4 41) :=
  ⟨by decide, claim_C7 1 40 10 11 12 13 6 0 77 32 (by decide)⟩

end StdMangle
